import Mathlib

/-!
Verification development for Plover's Wayland keyboard layer
(`plover/oslayer/wayland/keyboardcontrol.py` and
`plover/oslayer/wayland/keyboardlayout.py`).

Characters and byte buffers are modelled as natural-number codepoints
(`Nat`, `List Nat`).  Stateful Python objects become explicit state records,
and each handler or method becomes a pure function from a state and its
arguments to a new state together with the trace of protocol events it emits.
-/

set_option maxRecDepth 4000

namespace PloverWayland

/-! ## Constants (`keyboardlayout.py`) -/

def XKB_KEYCODE_OFFSET : Nat := 8

def XKB_KEYCODE_MAX : Nat := 255

/-- `PLOVER_TAG = b'<PLVR>'`, as bytes. -/
def ploverTag : List Nat := [60, 80, 76, 86, 82, 62]

/-! ## Python string primitives used by `StringOutputLayout.__init__`

`str.lower`, `str.upper` and `str.isprintable` are CPython built-ins, not part
of this repository; the three definitions below encode their documented
behaviour restricted to the codepoints actually reachable here: the source
only applies them to `chr(i)` for `i < 255` and to the resulting strings,
which all lie in `0..254` together with U+039C (the uppercase of `µ`). -/

/-- Python `chr(c).lower()` for `c < 255` (always a single character there):
ASCII `A`-`Z` and Latin-1 `À`-`Þ` (except `×`, U+00D7) map down by 32. -/
def pyLower (c : Nat) : Nat :=
  if 65 ≤ c ∧ c ≤ 90 then c + 32
  else if 192 ≤ c ∧ c ≤ 222 ∧ c ≠ 215 then c + 32
  else c

/-- Python `chr(c).upper()` for `c < 255`, as a list of codepoints:
ASCII `a`-`z` and Latin-1 `à`-`þ` (except `÷`, U+00F7) map up by 32,
`µ` (U+00B5) maps to `Μ` (U+039C), and `ß` (U+00DF) maps to `"SS"`. -/
def pyUpper (c : Nat) : List Nat :=
  if 97 ≤ c ∧ c ≤ 122 then [c - 32]
  else if c = 181 then [924]
  else if c = 223 then [83, 83]
  else if 224 ≤ c ∧ c ≤ 254 ∧ c ≠ 247 then [c - 32]
  else [c]

/-- Python `str.isprintable` restricted to the reachable codepoints
(`0..254` plus U+039C): printable ASCII is `0x20..0x7E`, printable Latin-1 is
`0xA1..0xFF` minus the soft hyphen `0xAD`, and `Μ` (U+039C) is printable. -/
def pyIsPrintable (c : Nat) : Bool :=
  (32 ≤ c && c ≤ 126) || (161 ≤ c && c ≤ 255 && c != 173) || c == 924

/-! ## `StringOutputLayout` (`keyboardlayout.py`, lines 128-182) -/

/-- The multiset of printable single-character results of
`(c.lower(), c.upper())` for `c` in `map(chr, range(XKB_KEYCODE_MAX))` —
the generator feeding the `printable` set comprehension in
`StringOutputLayout.__init__`. -/
def printableMultiset : List Nat :=
  (List.range XKB_KEYCODE_MAX).flatMap fun c =>
    [[pyLower c], pyUpper c].filterMap fun s =>
      match s with
      | [u] => if pyIsPrintable u then some u else none
      | _ => none

/-- Ordered duplicate-dropping insertion, used to realise `sorted(set(...))`
as one pass over the collected codepoints. -/
def insertAsc (c : Nat) : List Nat → List Nat
  | [] => [c]
  | x :: xs =>
    if c < x then c :: x :: xs
    else if c = x then x :: xs
    else x :: insertAsc c xs

/-- `sorted(printable)`: the ascending enumeration of the distinct members of
`printableMultiset`. -/
def printableSorted : List Nat := printableMultiset.foldr insertAsc []

/-- The value of `printableSorted`, as an explicit literal (see
`printableStatic_eq`): 95 printable ASCII codepoints, 93 printable Latin-1
codepoints, and U+039C. -/
def printableStatic : List Nat :=
  [32, 33, 34, 35, 36, 37, 38, 39, 40, 41, 42, 43, 44, 45, 46, 47, 48, 49,
   50, 51, 52, 53, 54, 55, 56, 57, 58, 59, 60, 61, 62, 63, 64, 65, 66, 67,
   68, 69, 70, 71, 72, 73, 74, 75, 76, 77, 78, 79, 80, 81, 82, 83, 84, 85,
   86, 87, 88, 89, 90, 91, 92, 93, 94, 95, 96, 97, 98, 99, 100, 101, 102,
   103, 104, 105, 106, 107, 108, 109, 110, 111, 112, 113, 114, 115, 116,
   117, 118, 119, 120, 121, 122, 123, 124, 125, 126, 161, 162, 163, 164,
   165, 166, 167, 168, 169, 170, 171, 172, 174, 175, 176, 177, 178, 179,
   180, 181, 182, 183, 184, 185, 186, 187, 188, 189, 190, 191, 192, 193,
   194, 195, 196, 197, 198, 199, 200, 201, 202, 203, 204, 205, 206, 207,
   208, 209, 210, 211, 212, 213, 214, 215, 216, 217, 218, 219, 220, 221,
   222, 223, 224, 225, 226, 227, 228, 229, 230, 231, 232, 233, 234, 235,
   236, 237, 238, 239, 240, 241, 242, 243, 244, 245, 246, 247, 248, 249,
   250, 251, 252, 253, 254, 924]

set_option maxHeartbeats 4000000 in
theorem printableStatic_eq : printableStatic = printableSorted := by decide

/-- `max_mappings = XKB_KEYCODE_MAX - XKB_KEYCODE_OFFSET` (= 247). -/
def maxMappings : Nat := XKB_KEYCODE_MAX - XKB_KEYCODE_OFFSET

/-- `levels = 2`. -/
def outputLevels : Nat := 2

/-- The `free_mappings` iterator before any element is consumed:
`[(keycode, mod_level) for mod_level in range(levels)
                       for keycode in range(1, max_mappings)]`. -/
def freePairs : List (Nat × Nat) :=
  (List.range outputLevels).flatMap fun lvl =>
    (List.range' 1 (maxMappings - 1)).map fun kc => (kc, lvl)

/-- The static assignment: `sorted(printable)` zipped with the slots the
`for c in sorted(printable)` loop consumes from `free_mappings`. -/
def staticPairs : List (Nat × Nat × Nat) :=
  printableStatic.zip freePairs

/-- The slots left over for `self._extra_mappings`. -/
def extraPairs : List (Nat × Nat) :=
  freePairs.drop printableStatic.length

/-- `1 << mod_level >> 1`: the modifier mask stored in a combo. -/
def comboOfLevel (lvl : Nat) : Nat := 1 <<< lvl >>> 1

/-- State of a `StringOutputLayout` instance.  `keymap` is the
247-row/2-level array of optional keysyms, `charToCombo` the
`_char_to_combo` dict, `nextExtra` the `_next_extra_mapping_index` cursor and
`extraMaps` the `_extra_mappings` list of `[keycode, mod_level, char]`
entries. -/
structure SynthState where
  keymap : Nat → Nat → Option Nat
  charToCombo : Nat → Option (Nat × Nat)
  nextExtra : Nat
  extraMaps : List (Nat × Nat × Option Nat)

/-- `StringOutputLayout.__init__`, parameterised by the external
`uchr_to_keysym` function `ks` (from `plover.oslayer.xkeyboardcontrol`, not
part of this repository; no claim depends on its values). -/
def initSynth (ks : Nat → Nat) : SynthState where
  keymap := fun kc lvl =>
    (staticPairs.find? fun e => e.2.1 == kc && e.2.2 == lvl).map fun e => ks e.1
  charToCombo := fun c =>
    (staticPairs.find? fun e => e.1 == c).map fun e => (e.2.1, comboOfLevel e.2.2)
  nextExtra := 0
  extraMaps := extraPairs.map fun p => (p.1, p.2, none)

/-- One iteration of the `for char in string` loop of
`StringOutputLayout.string_to_combos`: returns the new state, the combo
appended to `combo_list`, and whether this character set `updated`. -/
def s2cChar (ks : Nat → Nat) (st : SynthState) (c : Nat) :
    SynthState × (Nat × Nat) × Bool :=
  match st.charToCombo c with
  | some combo => (st, combo, false)
  | none =>
    let i := st.nextExtra
    let e := st.extraMaps.getD i (0, 0, none)
    let kc := e.1
    let lvl := e.2.1
    let oldc := e.2.2
    let combo := (kc, comboOfLevel lvl)
    ({ keymap := fun a b => if a = kc ∧ b = lvl then some (ks c) else st.keymap a b
       charToCombo := fun x =>
         if x = c then some combo
         else if some x = oldc then none
         else st.charToCombo x
       nextExtra := (i + 1) % st.extraMaps.length
       extraMaps := st.extraMaps.set i (kc, lvl, some c) },
     combo, true)

/-- The whole `for char in string` loop: final state, `combo_list`, and the
accumulated `updated` flag. -/
def s2cList (ks : Nat → Nat) (st : SynthState) :
    List Nat → SynthState × List (Nat × Nat) × Bool
  | [] => (st, [], false)
  | c :: cs =>
    let r1 := s2cChar ks st c
    let r2 := s2cList ks r1.1 cs
    (r2.1, r1.2.1 :: r2.2.1, r1.2.2 || r2.2.2)

/-- `StringOutputLayout.string_to_combos`: returns
`(updated, combo_list)` together with the mutated state. -/
def stringToCombos (ks : Nat → Nat) (st : SynthState) (cs : List Nat) :
    (Bool × List (Nat × Nat)) × SynthState :=
  let r := s2cList ks st cs
  ((r.2.2, r.2.1), r.1)

/-! ## Protocol events emitted by `KeyboardHandler` (`keyboardcontrol.py`) -/

/-- One request sent to a virtual-keyboard protocol object: a keymap push
(`_update_output_keymap` / forwarding in `_on_keymap`), a
`modifiers(depressed, latched, locked, group)` request, or a
`key(time, keycode, state)` request. -/
inductive KEvent where
  | keymapPush : KEvent
  | modifiers (depressed latched locked group : Nat) : KEvent
  | key (time keycode state : Nat) : KEvent
deriving DecidableEq, Repr

/-- Whether an event is a `modifiers` request. -/
def KEvent.isMod : KEvent → Bool
  | .modifiers _ _ _ _ => true
  | _ => false

/-- Whether an event is a `key` request. -/
def KEvent.isKey : KEvent → Bool
  | .key _ _ _ => true
  | _ => false

/-- The `for keycode, mods in combo_list` loop body of
`KeyboardHandler.send_string`, starting from modifier state `modsState`:
pushes a `modifiers` event whenever the combo's modifier set differs from the
current one, then a press/release pair; after the last combo, emits a final
all-clear `modifiers` event if the modifier state is nonzero. -/
def sendStringLoop (t : Nat) (modsState : Nat) : List (Nat × Nat) → List KEvent
  | [] => if modsState ≠ 0 then [.modifiers 0 0 0 0] else []
  | (kc, mods) :: rest =>
    (if mods ≠ modsState then [KEvent.modifiers mods 0 0 0] else []) ++
    [.key t kc 1, .key t kc 0] ++ sendStringLoop t mods rest

/-- `KeyboardHandler.send_string`: resolves the string through the output
layout, pushes an updated keymap first when the lookup dirtied the layout,
then emits the key/modifier events.  Returns the events sent to the output
keyboard and the mutated layout state; `t` is the timestamp taken at entry. -/
def sendString (ks : Nat → Nat) (st : SynthState) (t : Nat) (cs : List Nat) :
    List KEvent × SynthState :=
  let r := stringToCombos ks st cs
  (((if r.1.1 then [KEvent.keymapPush] else []) ++ sendStringLoop t 0 r.1.2), r.2)

/-- `KeyboardHandler.send_backspaces`: `count` press/release pairs on
keycode 0 (the reserved tag/backspace key). -/
def sendBackspaces (t : Nat) (count : Nat) : List KEvent :=
  (List.range count).flatMap fun _ => [.key t 0 1, .key t 0 0]

/-- `KeyboardHandler.send_key_combination`, applied to the pre-parsed step
list `steps` (elements `((keycode, mods), pressed)` as produced by
`parse_key_combo`): emits a `key` event per step, updates the running
modifier mask and emits a `modifiers` event whenever the step carries a
nonzero modifier set.  Returns the emitted events together with the final
mask; the trailing `assert not mods_state` succeeds iff that mask is 0. -/
def sendKeyComboLoop (t : Nat) (modsState : Nat) :
    List ((Nat × Nat) × Bool) → List KEvent × Nat
  | [] => ([], modsState)
  | ((kc, mods), pressed) :: rest =>
    let keyEvt : KEvent := .key t kc (if pressed then 1 else 0)
    if mods ≠ 0 then
      let mods' := if pressed then modsState ||| mods
                   else modsState ^^^ (modsState &&& mods)
      let r := sendKeyComboLoop t mods' rest
      (keyEvt :: KEvent.modifiers mods' 0 0 0 :: r.1, r.2)
    else
      let r := sendKeyComboLoop t modsState rest
      (keyEvt :: r.1, r.2)

/-- `send_key_combination` proper: the events sent to the replay keyboard and
whether the final `assert not mods_state` holds. -/
def sendKeyCombination (t : Nat) (steps : List ((Nat × Nat) × Bool)) :
    List KEvent × Bool :=
  let r := sendKeyComboLoop t 0 steps
  (r.1, r.2 == 0)

/-! ## `KeyboardHandler._on_keymap` (lines 92-103) -/

/-- Contiguous-subsequence test on byte lists (`PLOVER_TAG in keymap`). -/
def isSegmentOf (pat : List Nat) : List Nat → Bool
  | [] => pat.isEmpty
  | x :: xs => pat.isPrefixOf (x :: xs) || isSegmentOf pat xs

/-- The keymap-related state of the shared connection:
`_keymap` (last observed host keymap snapshot) and `_replay_layout`
(the `KeyComboLayout` built from it).  The layout type is abstract; the
parameter `parse` of `onKeymap` stands for the `KeyComboLayout`
constructor. -/
structure ReplaySt (L : Type) where
  keymap : Option (List Nat)
  replayLayout : Option L

/-- `KeyboardHandler._on_keymap`: reads the inbound keymap buffer `bytes`;
if it carries `PLOVER_TAG` or equals the stored snapshot, does nothing;
otherwise rebuilds the replay layout (`parse` stands for the
`KeyComboLayout` constructor), forwards the keymap to the replay keyboard
and stores the snapshot.  The second component is the forwarded
`keymap(fmt, fd, size)` request, if any, carrying the same format and
buffer. -/
def onKeymap {L : Type} (parse : List Nat → L) (st : ReplaySt L)
    (fmt : Nat) (bytes : List Nat) : ReplaySt L × Option (Nat × List Nat) :=
  if isSegmentOf ploverTag bytes then (st, none)
  else if st.keymap = some bytes then (st, none)
  else ({ keymap := some bytes, replayLayout := some (parse bytes) },
        some (fmt, bytes))

/-! ## `KeyboardHandler._on_grab_key` / `_on_grab_modifiers` (lines 105-121) -/

/-- `KeyboardHandler._on_grab_key`: invokes every registered `grab_key`
listener (collecting each return value, in registration-set order), and
forwards `key(origtime, keycode, state)` to the replay keyboard iff no
listener reported the event suppressed.  Returns the list of listener
results and the forwarded request, if any. -/
def onGrabKey (listeners : List (Nat → Nat → Nat → Bool))
    (origtime keycode state : Nat) : List Bool × Option (Nat × Nat × Nat) :=
  let results := listeners.map fun cb => cb origtime keycode state
  let suppressed := results.foldl (fun a b => a || b) false
  (results, if suppressed then none else some (origtime, keycode, state))

/-- `KeyboardHandler._on_grab_modifiers`: same shape for
`modifiers(depressed, latched, locked, layout)` events. -/
def onGrabModifiers (listeners : List (Nat → Nat → Nat → Nat → Bool))
    (depressed latched locked layout : Nat) :
    List Bool × Option (Nat × Nat × Nat × Nat) :=
  let results := listeners.map fun cb => cb depressed latched locked layout
  let suppressed := results.foldl (fun a b => a || b) false
  (results, if suppressed then none else some (depressed, latched, locked, layout))

/-! ## `KeyboardHandler` reference counting (lines 25-59, 146-238)

The protocol objects owned by the handler are modelled by presence flags;
`_event_listeners` by the sizes of the two listener sets.  Reference counts
are `Int` so that the `assert refcount >= 0` in `decref` (and
`assert refcount >= 1` in `incref`) is a real check: a step returns `none`
when its assertion fails. -/

inductive Capability where
  | capture
  | emulate
deriving DecidableEq, Repr

/-- The mutable state of the `KeyboardHandler` singleton relevant to
reference counting: the two refcounts, the shared connection objects, and
the per-capability protocol objects. -/
@[ext] structure HState where
  refcountCapture : Int
  refcountEmulate : Int
  display : Bool
  interfaces : Bool
  keyboard : Bool
  pipe : Bool
  loopThread : Bool
  replayKeyboard : Bool
  replayLayout : Bool
  keymapSnap : Bool
  grabKeyListeners : Nat
  grabModListeners : Nat
  inputMethod : Bool
  grabbedKeyboard : Bool
  outputKeyboard : Bool
  outputLayout : Bool
deriving DecidableEq, Repr

/-- The state at `KeyboardHandler.__init__`. -/
def initH : HState where
  refcountCapture := 0
  refcountEmulate := 0
  display := false
  interfaces := false
  keyboard := false
  pipe := false
  loopThread := false
  replayKeyboard := false
  replayLayout := false
  keymapSnap := false
  grabKeyListeners := 0
  grabModListeners := 0
  inputMethod := false
  grabbedKeyboard := false
  outputKeyboard := false
  outputLayout := false

/-- The first `n` of the five stages of `_setup_base` on the success path:
connect the display, bind the registry interfaces, create the replay
keyboard, create the seat keyboard, start the pipe and the dispatch
thread.  `n ≥ 5` is the complete, successful setup.  Stage 5 bundles the
three statements of lines 157–159 (`os.pipe()`, the `Thread` constructor,
`start()`), which never fail on the success path; the exception path,
where a failure between those statements matters, is modelled
statement-by-statement by `setupBaseSteps` below. -/
def setupBaseUpTo (n : Nat) (s : HState) : HState :=
  { s with display := if 1 ≤ n then true else s.display,
           interfaces := if 2 ≤ n then true else s.interfaces,
           replayKeyboard := if 3 ≤ n then true else s.replayKeyboard,
           keyboard := if 4 ≤ n then true else s.keyboard,
           pipe := if 5 ≤ n then true else s.pipe,
           loopThread := if 5 ≤ n then true else s.loopThread }

/-- `_setup_base` (success path). -/
def setupBase (s : HState) : HState := setupBaseUpTo 5 s

/-- `_teardown_base` on the success path: stop and join the dispatch
thread, close the pipe, drop the replay keyboard, replay layout and keymap
snapshot, release the seat keyboard and every bound interface, disconnect
the display.  Each step is guarded on presence in the source, so the
function is total on partial states.  In every state the balanced
`incref`/`decref` sequences reach, the dispatch thread — when present —
is a started thread and the pipe exists exactly when the thread does, so
`join()` returns and the guarded cleanup runs to completion; the states
where those assumptions break are modelled by `teardownBaseFine` below. -/
def teardownBase (s : HState) : HState :=
  { s with loopThread := false, pipe := false, replayKeyboard := false,
           replayLayout := false, keymapSnap := false, keyboard := false,
           interfaces := false, display := false }

/-- The first `n` of the three steps of `_setup_capture`:
check required interfaces (no state change), obtain the input method,
grab the keyboard (and register the event handlers). -/
def setupCaptureUpTo (n : Nat) (s : HState) : HState :=
  { s with inputMethod := if 2 ≤ n then true else s.inputMethod,
           grabbedKeyboard := if 3 ≤ n then true else s.grabbedKeyboard }

/-- The first `n` of the three steps of `_setup_emulate`:
check required interfaces, create the output keyboard, create the output
layout (and push its initial keymap). -/
def setupEmulateUpTo (n : Nat) (s : HState) : HState :=
  { s with outputKeyboard := if 2 ≤ n then true else s.outputKeyboard,
           outputLayout := if 3 ≤ n then true else s.outputLayout }

/-- `_teardown_capture`: clear both listener sets, destroy the grab and the
input method (each guarded on presence). -/
def teardownCapture (s : HState) : HState :=
  { s with grabKeyListeners := 0, grabModListeners := 0,
           grabbedKeyboard := false, inputMethod := false }

/-- `_teardown_emulate`. -/
def teardownEmulate (s : HState) : HState :=
  { s with outputKeyboard := false, outputLayout := false }

/-- The refcount field for a capability (`getattr(self, '_refcount_' + mode)`). -/
def refOf (m : Capability) (s : HState) : Int :=
  match m with
  | .capture => s.refcountCapture
  | .emulate => s.refcountEmulate

/-- Store a capability's refcount field. -/
def setRef (m : Capability) (v : Int) (s : HState) : HState :=
  match m with
  | .capture => { s with refcountCapture := v }
  | .emulate => { s with refcountEmulate := v }

/-- `getattr(self, '_setup_' + mode)` to completion. -/
def setupCap (m : Capability) (s : HState) : HState :=
  match m with
  | .capture => setupCaptureUpTo 3 s
  | .emulate => setupEmulateUpTo 3 s

/-- `getattr(self, '_teardown_' + mode)`. -/
def teardownCap (m : Capability) (s : HState) : HState :=
  match m with
  | .capture => teardownCapture s
  | .emulate => teardownEmulate s

/-- `KeyboardHandler.decref`: decrement the capability's count
(`none` when the `assert refcount >= 0` fails), run the capability teardown
on the 1→0 transition, and tear down the shared connection when the
combined count reaches 0. -/
def decref (m : Capability) (s : HState) : Option HState :=
  let rc := refOf m s - 1
  if rc < 0 then none
  else
    let s1 := setRef m rc s
    let s2 := if rc = 0 then teardownCap m s1 else s1
    some (if s2.refcountCapture + s2.refcountEmulate = 0 then teardownBase s2 else s2)

/-- `KeyboardHandler.incref`, success path (no exception during setup):
increment the capability's count (`none` when `assert refcount >= 1`
fails), establish the shared connection on the 0→1 transition of the
combined count, and run the capability setup on the 0→1 transition of its
own count. -/
def incref (m : Capability) (s : HState) : Option HState :=
  let rc := refOf m s + 1
  if rc < 1 then none
  else
    let s1 := setRef m rc s
    let total := s1.refcountCapture + s1.refcountEmulate
    let s2 := if total = 1 then setupBase s1 else s1
    some (if rc = 1 then setupCap m s2 else s2)

/-! ### The exception path of `incref`, statement by statement

The model above bundles `_setup_base` into five stages because, on the
success path, no observable state lies between `self._pipe = os.pipe()`
(line 157), the `Thread` constructor (line 158) and `start()` (line 159).
On the exception path those three statements are distinct failure points,
and `_teardown_base`'s cleanup of the pipe sits inside
`if self._loop_thread is not None` (lines 162–170) with
`self._loop_thread.join()` at line 166 — a call that raises
`RuntimeError` on a thread object that was never started.  The model
below embeds `_setup_base` (lines 146–159) and `_teardown_base`
(lines 161–182) one statement at a time so that those failure points and
the guard structure of the teardown are represented exactly. -/

/-- The handler state for the statement-level model: the two refcounts,
one flag per attribute `_setup_base`/`_teardown_base` and the capability
setups touch, plus `loopStarted`, the started flag of the thread object
held in `_loop_thread` (a `Thread` on which `start()` has not run raises
`RuntimeError` from `join()`).  `bound` is the registry roundtrip having
populated `_interface`; `connected` is `self._display.connect()` having
run on the constructed display. -/
structure FineState where
  refcountCapture : Int
  refcountEmulate : Int
  display : Bool
  connected : Bool
  interfaces : Bool
  bound : Bool
  replayKeyboard : Bool
  keyboard : Bool
  pipe : Bool
  loopThread : Bool
  loopStarted : Bool
  replayLayout : Bool
  keymapSnap : Bool
  grabKeyListeners : Nat
  grabModListeners : Nat
  inputMethod : Bool
  grabbedKeyboard : Bool
  outputKeyboard : Bool
  outputLayout : Bool
deriving DecidableEq, Repr

/-- The statement-level state at `KeyboardHandler.__init__`. -/
def initFine : FineState where
  refcountCapture := 0
  refcountEmulate := 0
  display := false
  connected := false
  interfaces := false
  bound := false
  replayKeyboard := false
  keyboard := false
  pipe := false
  loopThread := false
  loopStarted := false
  replayLayout := false
  keymapSnap := false
  grabKeyListeners := 0
  grabModListeners := 0
  inputMethod := false
  grabbedKeyboard := false
  outputKeyboard := false
  outputLayout := false

/-- The first `n` of the ten statements of `_setup_base`
(keyboardcontrol.py lines 146–159), each of which can raise:
1 `self._display = Display()`; 2 `self._display.connect()`;
3 `self._interface = {}`; 4 the registry, its dispatcher and the first
roundtrip (lines 150–152, populating `_interface`); 5 the replay
keyboard (line 153); 6 the seat keyboard (line 154); 7 the keymap
dispatcher and the second roundtrip (lines 155–156, changing no handler
attribute here); 8 `self._pipe = os.pipe()` (line 157); 9 the `Thread`
constructor (line 158, the thread object exists but is not started);
10 `self._loop_thread.start()` (line 159).  `n = 10` is the complete,
successful setup. -/
def setupBaseSteps (n : Nat) (s : FineState) : FineState :=
  { s with display := if 1 ≤ n then true else s.display,
           connected := if 2 ≤ n then true else s.connected,
           interfaces := if 3 ≤ n then true else s.interfaces,
           bound := if 4 ≤ n then true else s.bound,
           replayKeyboard := if 5 ≤ n then true else s.replayKeyboard,
           keyboard := if 6 ≤ n then true else s.keyboard,
           pipe := if 8 ≤ n then true else s.pipe,
           loopThread := if 9 ≤ n then true else s.loopThread,
           loopStarted := if 10 ≤ n then true else s.loopStarted }

/-- Lines 171–182 of `_teardown_base`: the statements after the
thread/pipe block — drop the replay keyboard, the replay layout and the
keymap snapshot, release the seat keyboard (guarded), drain and drop the
interface table, disconnect and drop the display (guarded).  None of
these statements touches `_pipe` or `_loop_thread`. -/
def teardownRest (s : FineState) : FineState :=
  { s with replayKeyboard := false, replayLayout := false,
           keymapSnap := false, keyboard := false, bound := false,
           interfaces := false, connected := false, display := false }

/-- `_teardown_base` (lines 161–182), statement by statement.  The pipe
is closed only inside `if self._loop_thread is not None` (lines 162–170):
a state with `pipe = true` but `loopThread = false` keeps its pipe.
Inside that guard, `os.write(self._pipe[1], b'quit')` succeeds (the pipe
exists whenever the thread object does), then `self._loop_thread.join()`
(line 166) raises `RuntimeError` when the thread was never started —
the teardown aborts right there, every attribute still as it was, and
the second component reports the escaped exception. -/
def teardownBaseFine (s : FineState) : FineState × Bool :=
  if s.loopThread then
    if s.loopStarted then
      (teardownRest { s with loopThread := false, loopStarted := false,
                             pipe := false }, false)
    else (s, true)
  else (teardownRest s, false)

/-- The first `n` of the three stages of a capability's setup on the
statement-level state (`_setup_capture` lines 184–189 / `_setup_emulate`
lines 201–205, same stages as `setupCaptureUpTo`/`setupEmulateUpTo`):
check required interfaces (no state change), create the first protocol
object, create the second (for emulate, the layout plus its keymap push,
which changes no handler attribute beyond `_output_layout`). -/
def setupCapSteps (m : Capability) (n : Nat) (s : FineState) : FineState :=
  match m with
  | .capture => { s with inputMethod := if 2 ≤ n then true else s.inputMethod,
                         grabbedKeyboard := if 3 ≤ n then true else s.grabbedKeyboard }
  | .emulate => { s with outputKeyboard := if 2 ≤ n then true else s.outputKeyboard,
                         outputLayout := if 3 ≤ n then true else s.outputLayout }

/-- `getattr(self, '_teardown_' + mode)` on the statement-level state:
`_teardown_capture` clears both listener sets and destroys the grab and
the input method (guarded); `_teardown_emulate` drops the output
keyboard and layout.  Neither can raise. -/
def teardownCapFine (m : Capability) (s : FineState) : FineState :=
  match m with
  | .capture => { s with grabKeyListeners := 0, grabModListeners := 0,
                         grabbedKeyboard := false, inputMethod := false }
  | .emulate => { s with outputKeyboard := false, outputLayout := false }

/-- The refcount field for a capability, statement-level state. -/
def refOfFine (m : Capability) (s : FineState) : Int :=
  match m with
  | .capture => s.refcountCapture
  | .emulate => s.refcountEmulate

/-- Store a capability's refcount field, statement-level state. -/
def setRefFine (m : Capability) (v : Int) (s : FineState) : FineState :=
  match m with
  | .capture => { s with refcountCapture := v }
  | .emulate => { s with refcountEmulate := v }

/-- `KeyboardHandler.decref` on the statement-level state: decrement the
capability's count (`none` when `assert refcount >= 0` fails), run the
capability teardown on the 1→0 transition, tear down the shared
connection when the combined count reaches 0.  The second component
reports an exception escaping `decref` — which happens exactly when
`_teardown_base` runs and its `join()` raises. -/
def decrefFine (m : Capability) (s : FineState) : Option (FineState × Bool) :=
  let rc := refOfFine m s - 1
  if rc < 0 then none
  else
    let s1 := setRefFine m rc s
    let s2 := if rc = 0 then teardownCapFine m s1 else s1
    if s2.refcountCapture + s2.refcountEmulate = 0 then
      some (teardownBaseFine s2)
    else some (s2, false)

/-- Which internal setup statement raises, for the exception path of
`incref`: `baseFail = some i` means `_setup_base` completes its first `i`
statements (of `setupBaseSteps`'s ten) and the next one raises (relevant
only when `_setup_base` runs); `capFail = some i` likewise for the three
stages of the capability setup. -/
structure FailSpec where
  baseFail : Option Nat
  capFail : Option Nat
deriving DecidableEq, Repr

/-- How a call to `incref` with a failing setup ends at the caller:
normal return; the setup exception re-raised by the bare `raise` after
`self.decref(mode)` completed the rollback; or an exception raised by
`decref` itself (the `join()` `RuntimeError`), which propagates out of
the `except` block before the `raise` is reached and so replaces the
setup exception. -/
inductive IncrefOutcome where
  | ok
  | raisedSetup
  | raisedTeardown
deriving DecidableEq, Repr

/-- The `except: self.decref(mode); raise` block of `incref` run on the
state a failing setup left behind. -/
def rollback (m : Capability) (s : FineState) : Option (FineState × IncrefOutcome) :=
  (decrefFine m s).map fun p =>
    (p.1, if p.2 then IncrefOutcome.raisedTeardown else IncrefOutcome.raisedSetup)

/-- `KeyboardHandler.incref` (lines 211–226) on the statement-level state,
exception path included: increment the capability's count (`none` when
`assert refcount >= 1` fails); inside `try`, establish the shared
connection on the 0→1 transition of the combined count and run the
capability setup on the 0→1 transition of its own count, with `fs` naming
the statement (if any) that raises; on a failure, run
`self.decref(mode)` and re-raise. -/
def increfFine (fs : FailSpec) (m : Capability) (s : FineState) :
    Option (FineState × IncrefOutcome) :=
  let rc := refOfFine m s + 1
  if rc < 1 then none
  else
    let s1 := setRefFine m rc s
    let total := s1.refcountCapture + s1.refcountEmulate
    if total = 1 then
      match fs.baseFail with
      | some i => rollback m (setupBaseSteps (min i 9) s1)
      | none =>
        let s2 := setupBaseSteps 10 s1
        if rc = 1 then
          match fs.capFail with
          | some j => rollback m (setupCapSteps m (min j 2) s2)
          | none => some (setupCapSteps m 3 s2, IncrefOutcome.ok)
        else some (s2, IncrefOutcome.ok)
    else
      if rc = 1 then
        match fs.capFail with
        | some j => rollback m (setupCapSteps m (min j 2) s1)
        | none => some (setupCapSteps m 3 s1, IncrefOutcome.ok)
      else some (s1, IncrefOutcome.ok)

/-- Activation/deactivation operations (`incref`/`decref` calls). -/
inductive KOp where
  | inc (m : Capability)
  | dec (m : Capability)
deriving DecidableEq, Repr

/-- Apply one operation. -/
def applyOp (s : HState) : KOp → Option HState
  | .inc m => incref m s
  | .dec m => decref m s

/-- Run a sequence of operations. -/
def runOps (s : HState) : List KOp → Option HState
  | [] => some s
  | op :: ops => (applyOp s op).bind fun s' => runOps s' ops

/-- Number of `incref m` calls in a sequence. -/
def countInc (m : Capability) (ops : List KOp) : Nat :=
  ops.countP fun op => decide (op = KOp.inc m)

/-- Number of `decref m` calls in a sequence. -/
def countDec (m : Capability) (ops : List KOp) : Nat :=
  ops.countP fun op => decide (op = KOp.dec m)

/-- A balanced call sequence: in every prefix, neither capability has more
`decref` than `incref` calls.  (Prefixes longer than the list coincide with
the list itself, so bounding the prefix length loses nothing and keeps the
predicate decidable.) -/
def Balanced (ops : List KOp) : Prop :=
  ∀ n ≤ ops.length,
    countDec .capture (ops.take n) ≤ countInc .capture (ops.take n) ∧
    countDec .emulate (ops.take n) ≤ countInc .emulate (ops.take n)

/-- Net reference-count contribution of a call sequence for a capability. -/
def net (m : Capability) (ops : List KOp) : Int :=
  (countInc m ops : Int) - (countDec m ops : Int)

/-- The state reached from `__init__` by a balanced call sequence is a
function of the two reference counts alone: every shared-connection object
is present iff the combined count is positive, every capability object iff
that capability's count is positive, and the listener sets, replay layout
and keymap snapshot are untouched by `incref`/`decref` sequences. -/
def mkState (a b : Int) : HState where
  refcountCapture := a
  refcountEmulate := b
  display := decide (0 < a + b)
  interfaces := decide (0 < a + b)
  keyboard := decide (0 < a + b)
  pipe := decide (0 < a + b)
  loopThread := decide (0 < a + b)
  replayKeyboard := decide (0 < a + b)
  replayLayout := false
  keymapSnap := false
  grabKeyListeners := 0
  grabModListeners := 0
  inputMethod := decide (0 < a)
  grabbedKeyboard := decide (0 < a)
  outputKeyboard := decide (0 < b)
  outputLayout := decide (0 < b)

/-- The shared connection objects are all present. -/
def connected (s : HState) : Prop :=
  s.display = true ∧ s.interfaces = true ∧ s.keyboard = true ∧
  s.pipe = true ∧ s.loopThread = true ∧ s.replayKeyboard = true

/-- The capture protocol objects are present. -/
def captureUp (s : HState) : Prop :=
  s.inputMethod = true ∧ s.grabbedKeyboard = true

/-- The emulation objects are present. -/
def emulateUp (s : HState) : Prop :=
  s.outputKeyboard = true ∧ s.outputLayout = true

/-! ## `KeyboardCapture` (lines 293-356) -/

/-- The capture façade state: `_mod_state` (last modifier bits, numlock
masked off) and `_suppressed_keys`.  Logical key names are abstracted as
naturals. -/
structure CaptureSt where
  modState : Nat
  suppressedKeys : List Nat
deriving DecidableEq, Repr

/-- `KeyboardCapture._on_grab_key`, parameterised by the external
`KEYCODE_TO_KEY` table (`plover.oslayer.xkeyboardcontrol`, not part of this
repository) as `k2k`.  Returns the suppression flag handed back to the
connection manager together with the `key_down` and `key_up` callback
invocations the call makes. -/
def captureOnGrabKey (k2k : Nat → Option Nat) (st : CaptureSt)
    (_origtime keycode state : Nat) : Bool × List Nat × List Nat :=
  match k2k (keycode + XKB_KEYCODE_OFFSET) with
  | none => (false, [], [])
  | some key =>
    let suppressed := st.suppressedKeys.contains key
    if state = 1 then
      if st.modState ≠ 0 then (false, [], [])
      else (suppressed, [key], [])
    else (suppressed, [], [key])

/-- `KeyboardCapture._on_grab_modifiers`: records
`(depressed | latched | locked) & ~0x10` (numlock ignored) and never
suppresses. -/
def captureOnGrabModifiers (st : CaptureSt) (depressed latched locked _layout : Nat) :
    CaptureSt × Bool :=
  let m := depressed ||| latched ||| locked
  ({ st with modState := m ^^^ (m &&& 16) }, false)

/-- `KeyboardCapture._on_grab_key` as the listener registered on the
connection manager. -/
def captureListener (k2k : Nat → Option Nat) (st : CaptureSt) :
    Nat → Nat → Nat → Bool :=
  fun origtime keycode state => (captureOnGrabKey k2k st origtime keycode state).1

/-! ## `KeyComboLayout.__init__` main loop (`keyboardlayout.py`, lines 67-113)

The `xkbcommon` keymap object is abstracted by its observable content: the
iteration order of keycodes with, per keycode, the keysym lists of the
levels of layout 0 (`key_get_syms_by_level`), plus the modifier names
(`mod_get_name`) and the keysym-to-name function (`keysym_get_name`).
Names are ASCII code lists. -/

structure XkbKey where
  keycode : Nat
  levels : List (List Nat)
deriving DecidableEq, Repr

/-- Pointwise dictionary update (`d[k] = v`). -/
def updFn {α β : Type} [DecidableEq α] (f : α → Option β) (k : α) (v : β) :
    α → Option β :=
  fun x => if x = k then some v else f x

/-- ASCII `str.lower` on one code unit. -/
def asciiLower (c : Nat) : Nat := if 65 ≤ c ∧ c ≤ 90 then c + 32 else c

/-- ASCII `str.lower` on a name. -/
def strLower (s : List Nat) : List Nat := s.map asciiLower

/-- `'alt'`, `'control'`, `'shift'`, `'super'`. -/
def modBaseNames : List (List Nat) :=
  [[97, 108, 116], [99, 111, 110, 116, 114, 111, 108],
   [115, 104, 105, 102, 116], [115, 117, 112, 101, 114]]

/-- The `modifiers` dict (lines 75-83): lower-cased modifier names mapped
to `1 << mod_index`, then `_l`/`_r` aliases added for the four base
modifier names present. -/
def modsTable (names : List (List Nat)) : List Nat → Option Nat :=
  let base := names.enum.foldl
    (fun f p => updFn f (strLower p.2) (1 <<< p.1)) (fun _ => none)
  modBaseNames.foldl
    (fun f nm =>
      match f nm with
      | none => f
      | some mask => updFn (updFn f (nm ++ [95, 108]) mask) (nm ++ [95, 114]) mask)
    base

/-- `'XF86'`. -/
def xf86Pre : List Nat := [88, 70, 56, 54]

/-- `'xf86_'`. -/
def xf86Low : List Nat := [120, 102, 56, 54, 95]

/-- Keysym-name normalisation (lines 99-104): an `XF86`-prefixed name is
rewritten to `'xf86_' + alias` with a lower-cased `alias`; otherwise the
name is lower-cased and there is no alias. -/
def normName (nm : List Nat) : List Nat × Option (List Nat) :=
  if xf86Pre.isPrefixOf nm then
    let a := strLower (nm.drop 4)
    (xf86Low ++ a, some a)
  else (strLower nm, none)

/-- Loop state: `combo_from_keyname` and `keysym_level`
(`keysym_level.get(keysym, 0)` reads default 0). -/
structure KclSt where
  combos : List Nat → Option (Nat × Nat)
  keysymLevel : Nat → Nat

def initKcl : KclSt where
  combos := fun _ => none
  keysymLevel := fun _ => 0

/-- The body of the inner loop (lines 87-113) for one
`(keycode, level, keysyms)` entry.  `symName` stands for the external
`xkb.keysym_get_name` (`none` on `XKBInvalidKeysym`), `mods` for the
`modifiers` dict.  Returns `none` when the
`assert keycode >= XKB_KEYCODE_OFFSET` fails. -/
def kclEntry (symName : Nat → Option (List Nat)) (mods : List Nat → Option Nat)
    (st : KclSt) (keycode level : Nat) (syms : List Nat) : Option KclSt :=
  match syms with
  | [keysym] =>
    if keysym = 0 then some st
    else
      match symName keysym with
      | none => some st
      | some raw =>
        let n := normName raw
        if (st.combos n.1).isSome ∧ level ≥ st.keysymLevel keysym then some st
        else if keycode < XKB_KEYCODE_OFFSET then none
        else
          let combo := (keycode - XKB_KEYCODE_OFFSET, (mods n.1).getD 0)
          let combos1 := updFn st.combos n.1 combo
          let combos2 :=
            match n.2 with
            | some a => updFn combos1 a combo
            | none => combos1
          some { combos := combos2,
                 keysymLevel := fun k => if k = keysym then level else st.keysymLevel k }
  | _ => some st

/-- The inner `for level in range(...)` loop for one keycode. -/
def kclKey (symName : Nat → Option (List Nat)) (mods : List Nat → Option Nat)
    (st : KclSt) (k : XkbKey) : Option KclSt :=
  k.levels.enum.foldlM (fun s p => kclEntry symName mods s k.keycode p.1 p.2) st

/-- The outer `for keycode in keymap` loop, from the empty tables. -/
def kclRun (symName : Nat → Option (List Nat)) (mods : List Nat → Option Nat)
    (km : List XkbKey) : Option KclSt :=
  km.foldlM (kclKey symName mods) initKcl

/-! ## Helper lemmas -/

/-- Folding `||` equals `any id`, with an arbitrary accumulator. -/
theorem foldl_or_eq_any (l : List Bool) (b : Bool) :
    l.foldl (fun a x => a || x) b = (b || l.any id) := by
  induction l generalizing b with
  | nil => simp
  | cons x xs ih => simp [List.foldl_cons, ih, Bool.or_assoc]

/-- The suppression disjunction folded over listener results, rephrased as
a condition on every result. -/
theorem suppress_iff {α : Type} (results : List Bool) (v : α) :
    (if results.foldl (fun a b => a || b) false = true then none else some v) =
      (if ∀ b ∈ results, b = false then some v else none) := by
  rw [foldl_or_eq_any, Bool.false_or]
  by_cases h : ∀ b ∈ results, b = false
  · have hany : results.any id = false := by
      rw [List.any_eq_false]
      intro x hx
      simp [h x hx]
    rw [hany, if_neg (by simp), if_pos h]
  · have hany : results.any id = true := by
      cases hx : results.any id with
      | true => rfl
      | false =>
        refine absurd (fun b hb => ?_) h
        have hfalse := List.any_eq_false.1 hx b hb
        simpa using hfalse
    rw [hany, if_pos rfl, if_neg h]

/-! ## Claims -/

/-- Claim C2, counterexample: with emulation freshly set up,
`send_string("Hi!")` emits exactly the three press/release pairs (keycodes
41, 74, 2 of the synthesised layout) with NO modifier event anywhere in the
trace — in particular no modifier-set event before the uppercase `H` and no
trailing all-clear — because every static character, upper case included,
is bound at level 0 with an empty modifier set. -/
theorem c2_counterexample :
    (sendString (fun c => c) (initSynth fun c => c) 0 [72, 105, 33]).1 =
      [KEvent.key 0 41 1, KEvent.key 0 41 0, KEvent.key 0 74 1,
       KEvent.key 0 74 0, KEvent.key 0 2 1, KEvent.key 0 2 0] ∧
    ((sendString (fun c => c) (initSynth fun c => c) 0 [72, 105, 33]).1.filter
       KEvent.isMod) = [] := by
  constructor <;> rfl

/-- Claim C2, amended: for any `uchr_to_keysym` function and timestamp,
`send_string("Hi!")` performs no keymap push (all three characters are
static), emits exactly three press/release pairs in character order, and
emits no modifier event at all (the static region binds every printable
character, uppercase included, at level 0 with modifier mask 0, so the
modifier state never changes and no trailing all-clear is sent); the
layout state is left unchanged. -/
theorem c2_send_string_hi (ks : Nat → Nat) (t : Nat) :
    sendString ks (initSynth ks) t [72, 105, 33] =
      ([KEvent.key t 41 1, KEvent.key t 41 0, KEvent.key t 74 1,
        KEvent.key t 74 0, KEvent.key t 2 1, KEvent.key t 2 0],
       initSynth ks) := by
  rfl

/-- Claim C3: an inbound keymap event whose buffer carries `PLOVER_TAG`, or
whose bytes equal the stored snapshot, leaves the replay layout and the
snapshot unchanged and forwards nothing to the replay keyboard; any other
keymap event rebuilds the layout from the new buffer, forwards format and
buffer unchanged, and stores the new snapshot. -/
theorem c3_on_keymap {L : Type} (parse : List Nat → L) (st : ReplaySt L)
    (fmt : Nat) (bytes : List Nat) :
    (isSegmentOf ploverTag bytes = true ∨ st.keymap = some bytes →
      onKeymap parse st fmt bytes = (st, none)) ∧
    (isSegmentOf ploverTag bytes = false → st.keymap ≠ some bytes →
      onKeymap parse st fmt bytes =
        ({ keymap := some bytes, replayLayout := some (parse bytes) },
         some (fmt, bytes))) := by
  constructor
  · rintro (h | h)
    · simp [onKeymap, h]
    · unfold onKeymap
      split
      · rfl
      · simp [h]
  · intro h1 h2
    simp [onKeymap, h1, h2]

theorem c3_on_keymap_witness :
    onKeymap (fun b => b) (ReplaySt.mk none none) 1
        ([1] ++ ploverTag ++ [2]) = (ReplaySt.mk none none, none) ∧
    onKeymap (fun b => b) (ReplaySt.mk none none) 1 [9] =
      (ReplaySt.mk (some [9]) (some [9]), some (1, [9])) :=
  ⟨(c3_on_keymap (fun b => b) (ReplaySt.mk none none) 1
      ([1] ++ ploverTag ++ [2])).1 (Or.inl (by decide)),
   (c3_on_keymap (fun b => b) (ReplaySt.mk none none) 1 [9]).2
      (by decide) (by decide)⟩

/-- Claim C4: on a grabbed-key or grabbed-modifiers event, every registered
listener is invoked exactly once (the result list records each listener's
return value, in order), and the event is forwarded to the replay keyboard
with the original field values iff no listener returned `true`; otherwise
nothing is forwarded. -/
theorem c4_grab_events (keyLs : List (Nat → Nat → Nat → Bool))
    (modLs : List (Nat → Nat → Nat → Nat → Bool))
    (origtime keycode state depressed latched locked layout : Nat) :
    (onGrabKey keyLs origtime keycode state).1 =
      keyLs.map (fun cb => cb origtime keycode state) ∧
    (onGrabKey keyLs origtime keycode state).2 =
      (if ∀ cb ∈ keyLs, cb origtime keycode state = false
       then some (origtime, keycode, state) else none) ∧
    (onGrabModifiers modLs depressed latched locked layout).1 =
      modLs.map (fun cb => cb depressed latched locked layout) ∧
    (onGrabModifiers modLs depressed latched locked layout).2 =
      (if ∀ cb ∈ modLs, cb depressed latched locked layout = false
       then some (depressed, latched, locked, layout) else none) := by
  refine ⟨rfl, ?_, rfl, ?_⟩
  · show (if (keyLs.map fun cb => cb origtime keycode state).foldl
            (fun a b => a || b) false = true
          then none else some (origtime, keycode, state)) = _
    rw [suppress_iff]
    refine if_congr ?_ rfl rfl
    constructor
    · intro h cb hcb
      exact h _ (List.mem_map_of_mem _ hcb)
    · intro h b hb
      obtain ⟨cb, hcb, rfl⟩ := List.mem_map.1 hb
      exact h cb hcb
  · show (if (modLs.map fun cb => cb depressed latched locked layout).foldl
            (fun a b => a || b) false = true
          then none else some (depressed, latched, locked, layout)) = _
    rw [suppress_iff]
    refine if_congr ?_ rfl rfl
    constructor
    · intro h cb hcb
      exact h _ (List.mem_map_of_mem _ hcb)
    · intro h b hb
      obtain ⟨cb, hcb, rfl⟩ := List.mem_map.1 hb
      exact h cb hcb

/-! ## Claim C5 -/

/-- The running-mask update performed by one `send_key_combination` step,
used to state the claim's "accumulating a running modifier mask". -/
def maskAfter (modsState : Nat) (step : (Nat × Nat) × Bool) : Nat :=
  if step.1.2 ≠ 0 then
    (if step.2 then modsState ||| step.1.2
     else modsState ^^^ (modsState &&& step.1.2))
  else modsState

/-- The number of steps at which the running mask actually changes,
used to state the claim's "a modifiers-update event exactly when the mask
changes". -/
def maskChangeCount (modsState : Nat) : List ((Nat × Nat) × Bool) → Nat
  | [] => 0
  | step :: rest =>
    let m := maskAfter modsState step
    (if m ≠ modsState then 1 else 0) + maskChangeCount m rest

/-- Claim C5, counterexample: for the step sequence "press key 50 with
modifier bit 1, press key 62 with the same bit, release both" the running
mask changes only twice (0→1 and 1→0), yet four modifiers-update events are
emitted — the code emits one after every step with nonzero modifier bits,
not only when the mask changes.  (The trailing assertion does succeed.) -/
theorem c5_counterexample :
    ((sendKeyCombination 0
        [((50, 1), true), ((62, 1), true), ((50, 1), false), ((62, 1), false)]).1.filter
      KEvent.isMod).length = 4 ∧
    maskChangeCount 0
        [((50, 1), true), ((62, 1), true), ((50, 1), false), ((62, 1), false)] = 2 ∧
    (4 : Nat) ≠ 2 := by
  refine ⟨rfl, rfl, by decide⟩

/-- Claim C5, amended: `send_key_combination` emits exactly one key event
per step, in sequence order with the step's keycode and press flag; it
emits a modifiers-update event after every step whose modifier bits are
nonzero — carrying the accumulated running mask, even when that mask is
unchanged — and after no other step; and the final assertion succeeds iff
the accumulated mask ends at zero. -/
theorem c5_send_key_combination (t : Nat) (steps : List ((Nat × Nat) × Bool)) :
    ((sendKeyCombination t steps).1.filterMap fun e =>
        match e with
        | .key _ kc st => some (kc, st)
        | _ => none) =
      steps.map (fun s => (s.1.1, if s.2 then 1 else 0)) ∧
    ((sendKeyCombination t steps).1.filter KEvent.isMod).length =
      (steps.filter fun s => s.1.2 ≠ 0).length ∧
    (sendKeyCombination t steps).2 = (steps.foldl maskAfter 0 == 0) := by
  have main : ∀ (ss : List ((Nat × Nat) × Bool)) (m : Nat),
      ((sendKeyComboLoop t m ss).1.filterMap fun e =>
          match e with
          | .key _ kc st => some (kc, st)
          | _ => none) =
        ss.map (fun s => (s.1.1, if s.2 then 1 else 0)) ∧
      ((sendKeyComboLoop t m ss).1.filter KEvent.isMod).length =
        (ss.filter fun s => s.1.2 ≠ 0).length ∧
      (sendKeyComboLoop t m ss).2 = ss.foldl maskAfter m := by
    intro ss
    induction ss with
    | nil => intro m; refine ⟨rfl, rfl, rfl⟩
    | cons s rest ih =>
      intro m
      obtain ⟨⟨kc, mods⟩, pressed⟩ := s
      by_cases hm : mods ≠ 0
      · have heq : maskAfter m ((kc, mods), pressed) =
            (if pressed then m ||| mods else m ^^^ (m &&& mods)) := by
          simp [maskAfter, hm]
        rcases ih (if pressed then m ||| mods else m ^^^ (m &&& mods)) with ⟨ih1, ih2, ih3⟩
        refine ⟨?_, ?_, ?_⟩
        · simpa [sendKeyComboLoop, hm] using ih1
        · simpa [sendKeyComboLoop, KEvent.isMod, hm, List.filter] using ih2
        · simp only [sendKeyComboLoop, if_pos hm, List.foldl_cons, heq]
          exact ih3
      · rcases ih m with ⟨ih1, ih2, ih3⟩
        have heq : maskAfter m ((kc, mods), pressed) = m := by
          simp [maskAfter, hm]
        refine ⟨?_, ?_, ?_⟩
        · simpa [sendKeyComboLoop, hm] using ih1
        · simpa [sendKeyComboLoop, KEvent.isMod, hm, List.filter] using ih2
        · simp only [sendKeyComboLoop, if_neg hm, List.foldl_cons, heq]
          exact ih3
  rcases main steps 0 with ⟨h1, h2, h3⟩
  exact ⟨h1, h2, by simp [sendKeyCombination, h3]⟩

/-! ## Claim C10 -/

/-- Claim C10: when the last grabbed-modifiers event left any non-numlock
modifier active, a key-press for a mapped key is never suppressed — the
capture listener returns `false`, so the connection manager forwards the
event unchanged to the replay keyboard even when the key is in the
suppressed set — and `key_down` is not invoked; a key-release still invokes
`key_up` and reports suppression from the suppressed set. -/
theorem c10_capture_modifier_bypass (k2k : Nat → Option Nat) (st : CaptureSt)
    (origtime keycode state key : Nat)
    (hk : k2k (keycode + XKB_KEYCODE_OFFSET) = some key) :
    (st.modState ≠ 0 →
      captureOnGrabKey k2k st origtime keycode 1 = (false, [], []) ∧
      (onGrabKey [captureListener k2k st] origtime keycode 1).2 =
        some (origtime, keycode, 1)) ∧
    (state ≠ 1 →
      captureOnGrabKey k2k st origtime keycode state =
        (st.suppressedKeys.contains key, [], [key])) := by
  constructor
  · intro hmod
    have hkey : captureOnGrabKey k2k st origtime keycode 1 = (false, [], []) := by
      simp [captureOnGrabKey, hk, hmod]
    refine ⟨hkey, ?_⟩
    show (if ([captureListener k2k st].map fun cb => cb origtime keycode 1).foldl
            (fun a b => a || b) false = true
          then none else some (origtime, keycode, 1)) = _
    have : captureListener k2k st origtime keycode 1 = false := by
      simp [captureListener, hkey]
    simp [this]
  · intro hstate
    simp [captureOnGrabKey, hk, hstate]

theorem c10_capture_modifier_bypass_witness :
    captureOnGrabKey (fun n => if n = 18 then some 7 else none)
        (CaptureSt.mk 4 [7]) 99 10 1 = (false, [], []) ∧
    (onGrabKey [captureListener (fun n => if n = 18 then some 7 else none)
        (CaptureSt.mk 4 [7])] 99 10 1).2 = some (99, 10, 1) ∧
    captureOnGrabKey (fun n => if n = 18 then some 7 else none)
        (CaptureSt.mk 4 [7]) 99 10 0 = (true, [], [7]) := by
  have h := c10_capture_modifier_bypass (fun n => if n = 18 then some 7 else none)
    (CaptureSt.mk 4 [7]) 99 10 0 7 (by decide)
  refine ⟨(h.1 (by decide)).1, (h.1 (by decide)).2, ?_⟩
  have h2 := h.2 (by decide)
  simpa using h2

/-! ## Claim C1: refcount step lemmas -/

theorem incref_capture_mkState (a b : Int) (ha : 0 ≤ a) (hb : 0 ≤ b) :
    incref .capture (mkState a b) = some (mkState (a + 1) b) := by
  have hlt : ¬ (a + 1 < 1) := by omega
  simp only [incref, refOf, setRef, mkState, setupCap, setupBase, setupBaseUpTo,
    setupCaptureUpTo, if_neg hlt]
  norm_num
  split_ifs <;> simp [HState.ext_iff, decide_eq_decide] <;> omega

theorem incref_emulate_mkState (a b : Int) (ha : 0 ≤ a) (hb : 0 ≤ b) :
    incref .emulate (mkState a b) = some (mkState a (b + 1)) := by
  have hlt : ¬ (b + 1 < 1) := by omega
  simp only [incref, refOf, setRef, mkState, setupCap, setupBase, setupBaseUpTo,
    setupEmulateUpTo, if_neg hlt]
  norm_num
  split_ifs <;> simp [HState.ext_iff, decide_eq_decide] <;> omega

theorem decref_capture_mkState (a b : Int) (ha : 0 < a) (hb : 0 ≤ b) :
    decref .capture (mkState a b) = some (mkState (a - 1) b) := by
  have hlt : ¬ (a - 1 < 0) := by omega
  simp only [decref, refOf, setRef, mkState, teardownCap, teardownCapture,
    teardownBase, if_neg hlt]
  split_ifs <;> simp_all [HState.ext_iff, decide_eq_decide] <;> omega

theorem decref_emulate_mkState (a b : Int) (ha : 0 ≤ a) (hb : 0 < b) :
    decref .emulate (mkState a b) = some (mkState a (b - 1)) := by
  have hlt : ¬ (b - 1 < 0) := by omega
  simp only [decref, refOf, setRef, mkState, teardownCap, teardownEmulate,
    teardownBase, if_neg hlt]
  split_ifs <;> simp_all [HState.ext_iff, decide_eq_decide] <;> omega

/-- Balance extended to arbitrary prefix lengths. -/
theorem balanced_take (ops : List KOp) (h : Balanced ops) (j : Nat) :
    countDec .capture (ops.take j) ≤ countInc .capture (ops.take j) ∧
    countDec .emulate (ops.take j) ≤ countInc .emulate (ops.take j) := by
  by_cases hj : j ≤ ops.length
  · exact h j hj
  · rw [List.take_of_length_le (by omega)]
    have hlast := h ops.length (le_refl _)
    rwa [List.take_length] at hlast

/-- A balanced run from a clean state with nonnegative counts `a`, `b`
stays on `mkState`, shifting each count by the net number of calls. -/
theorem runOps_mkState (ops : List KOp) :
    ∀ (a b : Int), 0 ≤ a → 0 ≤ b →
    (∀ n, 0 ≤ a + net .capture (ops.take n) ∧ 0 ≤ b + net .emulate (ops.take n)) →
    runOps (mkState a b) ops =
      some (mkState (a + net .capture ops) (b + net .emulate ops)) := by
  induction ops with
  | nil =>
    intro a b _ _ _
    simp [runOps, net, countInc, countDec]
  | cons op rest ih =>
    intro a b ha hb hbal
    have hb1 := hbal 1
    cases op with
    | inc m =>
      cases m with
      | capture =>
        rw [runOps, applyOp, incref_capture_mkState a b ha hb, Option.some_bind]
        rw [ih (a + 1) b (by omega) hb ?_]
        · congr 2 <;>
            · simp [net, countInc, countDec, List.countP_cons]
              ring
        · intro n
          have hn := hbal (n + 1)
          rw [List.take_succ_cons] at hn
          revert hn
          simp [net, countInc, countDec, List.countP_cons]
          omega
      | emulate =>
        rw [runOps, applyOp, incref_emulate_mkState a b ha hb, Option.some_bind]
        rw [ih a (b + 1) ha (by omega) ?_]
        · congr 2 <;>
            · simp [net, countInc, countDec, List.countP_cons]
              ring
        · intro n
          have hn := hbal (n + 1)
          rw [List.take_succ_cons] at hn
          revert hn
          simp [net, countInc, countDec, List.countP_cons]
          omega
    | dec m =>
      cases m with
      | capture =>
        have hpos : 0 < a := by
          have h1 := hb1.1
          rw [List.take_succ_cons, List.take_zero] at h1
          revert h1
          simp [net, countInc, countDec, List.countP_cons]
          omega
        rw [runOps, applyOp, decref_capture_mkState a b hpos hb, Option.some_bind]
        rw [ih (a - 1) b (by omega) hb ?_]
        · congr 2 <;>
            · simp [net, countInc, countDec, List.countP_cons]
              ring
        · intro n
          have hn := hbal (n + 1)
          rw [List.take_succ_cons] at hn
          revert hn
          simp [net, countInc, countDec, List.countP_cons]
          omega
      | emulate =>
        have hpos : 0 < b := by
          have h1 := hb1.2
          rw [List.take_succ_cons, List.take_zero] at h1
          revert h1
          simp [net, countInc, countDec, List.countP_cons]
          omega
        rw [runOps, applyOp, decref_emulate_mkState a b ha hpos, Option.some_bind]
        rw [ih a (b - 1) ha (by omega) ?_]
        · congr 2 <;>
            · simp [net, countInc, countDec, List.countP_cons]
              ring
        · intro n
          have hn := hbal (n + 1)
          rw [List.take_succ_cons] at hn
          revert hn
          simp [net, countInc, countDec, List.countP_cons]
          omega

theorem connected_mkState (a b : Int) : connected (mkState a b) ↔ 0 < a + b := by
  simp [connected, mkState]

theorem captureUp_mkState (a b : Int) : captureUp (mkState a b) ↔ 0 < a := by
  simp [captureUp, mkState]

theorem emulateUp_mkState (a b : Int) : emulateUp (mkState a b) ↔ 0 < b := by
  simp [emulateUp, mkState]

/-- Claim C1: along every balanced `incref`/`decref` sequence over the two
capabilities, no assertion fails, each per-capability reference count stays
non-negative and equals its net number of calls (so the combined count the
code computes is their sum), the shared connection objects (display, bound
interfaces, seat keyboard, pipe, dispatch thread, replay keyboard) are all
present iff the combined count is positive — i.e. they are established at
the 0→1 transition of the sum and fully torn down when it returns to 0 —
and each capability's protocol objects are present iff its own count is
positive. -/
theorem c1_refcount_connection (ops : List KOp) (hbal : Balanced ops) (n : Nat) :
    ∃ s, runOps initH (ops.take n) = some s ∧
      s.refcountCapture = net .capture (ops.take n) ∧
      s.refcountEmulate = net .emulate (ops.take n) ∧
      0 ≤ s.refcountCapture ∧ 0 ≤ s.refcountEmulate ∧
      (connected s ↔ 0 < s.refcountCapture + s.refcountEmulate) ∧
      (captureUp s ↔ 0 < s.refcountCapture) ∧
      (emulateUp s ↔ 0 < s.refcountEmulate) := by
  have hb : ∀ k, 0 ≤ (0 : Int) + net .capture ((ops.take n).take k) ∧
      0 ≤ (0 : Int) + net .emulate ((ops.take n).take k) := by
    intro k
    rw [List.take_take]
    have h1 := balanced_take ops hbal (min k n)
    constructor <;> (simp [net]; omega)
  have hrun := runOps_mkState (ops.take n) 0 0 (le_refl 0) (le_refl 0) hb
  have hinit : initH = mkState 0 0 := by decide
  refine ⟨mkState (net .capture (ops.take n)) (net .emulate (ops.take n)), ?_, rfl, rfl,
    ?_, ?_, ?_, ?_, ?_⟩
  · rw [hinit, hrun]
    congr 2 <;> ring
  · have := (hb n).1
    rwa [List.take_take, min_self, zero_add] at this
  · have := (hb n).2
    rwa [List.take_take, min_self, zero_add] at this
  · exact connected_mkState _ _
  · exact captureUp_mkState _ _
  · exact emulateUp_mkState _ _

theorem c1_refcount_connection_witness :
    Balanced [KOp.inc .capture, KOp.inc .emulate, KOp.dec .capture, KOp.dec .emulate] ∧
    (∃ s, runOps initH
        ([KOp.inc .capture, KOp.inc .emulate, KOp.dec .capture, KOp.dec .emulate].take 3) =
          some s ∧
      s.refcountCapture =
        net .capture
          ([KOp.inc .capture, KOp.inc .emulate, KOp.dec .capture, KOp.dec .emulate].take 3) ∧
      s.refcountEmulate =
        net .emulate
          ([KOp.inc .capture, KOp.inc .emulate, KOp.dec .capture, KOp.dec .emulate].take 3) ∧
      0 ≤ s.refcountCapture ∧ 0 ≤ s.refcountEmulate ∧
      (connected s ↔ 0 < s.refcountCapture + s.refcountEmulate) ∧
      (captureUp s ↔ 0 < s.refcountCapture) ∧
      (emulateUp s ↔ 0 < s.refcountEmulate)) :=
  ⟨by unfold Balanced; decide, c1_refcount_connection _ (by unfold Balanced; decide) 3⟩

/-! ## Claim C9 -/

/-- The state after the first activation fails at the `Thread` constructor
(line 158) and the rollback runs: every attribute restored except `_pipe`,
which stays set — with its two file descriptors still open. -/
def pipeLeakState : FineState := { initFine with pipe := true }

/-- The state after the first activation fails at `start()` (line 159) and
the rollback's `_teardown_base` aborts at `join()`: every connection
object still live, refcounts at 0. -/
def joinAbortState : FineState :=
  { initFine with display := true, connected := true, interfaces := true,
                  bound := true, replayKeyboard := true, keyboard := true,
                  pipe := true, loopThread := true }

/-- Claim C9 is refuted by the code: a failing `incref` does not always
perform compensating teardown of everything constructed in the call.
From a fresh handler, if `_setup_base` completes its first 8 statements
and the `Thread` constructor (line 158) raises, the rollback leaves
`_pipe` set — the post-call state differs from the pre-call state by the
leaked open pipe — although the original exception is re-raised.  If it
completes 9 statements and `start()` (line 159) raises, the rollback's
`_teardown_base` raises `RuntimeError` from `join()` on the never-started
thread: the teardown aborts before any cleanup, the display, interfaces,
keyboards, pipe and thread object all stay reachable with both refcounts
at 0, and the `RuntimeError` replaces the original exception. -/
theorem c9_rollback_divergence :
    (increfFine (FailSpec.mk (some 8) none) .capture initFine =
        some (pipeLeakState, IncrefOutcome.raisedSetup) ∧
      pipeLeakState = { initFine with pipe := true } ∧
      pipeLeakState ≠ initFine) ∧
    (increfFine (FailSpec.mk (some 9) none) .capture initFine =
        some (joinAbortState, IncrefOutcome.raisedTeardown) ∧
      joinAbortState.refcountCapture = 0 ∧
      joinAbortState.refcountEmulate = 0 ∧
      joinAbortState.display = true ∧ joinAbortState.interfaces = true ∧
      joinAbortState.keyboard = true ∧ joinAbortState.replayKeyboard = true ∧
      joinAbortState.pipe = true ∧ joinAbortState.loopThread = true ∧
      joinAbortState.loopStarted = false) := by
  decide

/-! ## Claims C6/C7: the output layout's static region and dynamic pool -/

/-- The static-region lookup: the `_char_to_combo` content right after
`StringOutputLayout.__init__` (definitionally the `charToCombo` field of
`initSynth`). -/
def staticCombo (c : Nat) : Option (Nat × Nat) :=
  (staticPairs.find? fun e => e.1 == c).map fun e => (e.2.1, comboOfLevel e.2.2)

theorem initSynth_charToCombo (ks : Nat → Nat) :
    (initSynth ks).charToCombo = staticCombo := rfl

/-- No extra slot coincides with a static slot. -/
theorem static_extra_slots_disjoint :
    ∀ p ∈ staticPairs, (p.2.1, p.2.2) ∉ extraPairs := by decide

/-- Looking up a static entry's own slot in `staticPairs` finds that entry
(slots are pairwise distinct). -/
theorem staticPairs_find_slot :
    ∀ p ∈ staticPairs,
      staticPairs.find? (fun e => e.2.1 == p.2.1 && e.2.2 == p.2.2) = some p := by
  decide

/-- Invariant of reachable `StringOutputLayout` states: the extra-slot pool
always consists of exactly the slots left over at construction; the rotation
cursor is in range; dynamically bound characters are never static; and the
static region — both the `_char_to_combo` entries for static characters and
the `_keymap` cells of static slots — is exactly as built by `__init__`. -/
structure SynthInv (ks : Nat → Nat) (st : SynthState) : Prop where
  pairsFixed : st.extraMaps.map (fun e => (e.1, e.2.1)) = extraPairs
  cursorLt : st.nextExtra < st.extraMaps.length
  extraNonStatic : ∀ e ∈ st.extraMaps, ∀ c, e.2.2 = some c → staticCombo c = none
  staticKept : ∀ c, staticCombo c ≠ none → st.charToCombo c = staticCombo c
  keymapKept : ∀ p ∈ staticPairs, st.keymap p.2.1 p.2.2 = some (ks p.1)

theorem synthInv_init (ks : Nat → Nat) : SynthInv ks (initSynth ks) := by
  refine ⟨?_, ?_, ?_, ?_, ?_⟩
  · show (extraPairs.map fun p => (p.1, p.2, (none : Option Nat))).map
        (fun e => (e.1, e.2.1)) = extraPairs
    rw [List.map_map,
      show ((fun e : Nat × Nat × Option Nat => (e.1, e.2.1)) ∘
        fun p : Nat × Nat => (p.1, p.2, (none : Option Nat))) = id from funext fun p => rfl,
      List.map_id]
  · show 0 < (extraPairs.map fun p => (p.1, p.2, (none : Option Nat))).length
    rw [List.length_map]
    decide
  · intro e he c hc
    obtain ⟨p, _, rfl⟩ := List.mem_map.1 he
    simp at hc
  · intro c _
    rfl
  · intro p hp
    show (staticPairs.find? fun e => e.2.1 == p.2.1 && e.2.2 == p.2.2).map
        (fun e => ks e.1) = some (ks p.1)
    rw [staticPairs_find_slot p hp]
    rfl

/-- `string_to_combos` preserves the invariant, one character at a time. -/
theorem s2cChar_inv (ks : Nat → Nat) (st : SynthState) (c : Nat)
    (h : SynthInv ks st) : SynthInv ks (s2cChar ks st c).1 := by
  rcases hc : st.charToCombo c with _ | combo
  · -- allocation branch
    simp only [s2cChar, hc]
    have hlen : st.extraMaps.length = extraPairs.length := by
      rw [← h.pairsFixed, List.length_map]
    have hnz : 0 < extraPairs.length := by decide
    have hcur := h.cursorLt
    have hget : st.extraMaps.getD st.nextExtra (0, 0, none) =
        st.extraMaps.get ⟨st.nextExtra, h.cursorLt⟩ := by
      rw [List.getD_eq_getElem?_getD, List.getElem?_eq_getElem h.cursorLt]
      rfl
    have hmem : st.extraMaps.getD st.nextExtra (0, 0, none) ∈ st.extraMaps := by
      rw [hget]
      exact List.get_mem _ _ _
    have hslot : ((st.extraMaps.getD st.nextExtra (0, 0, none)).1,
        (st.extraMaps.getD st.nextExtra (0, 0, none)).2.1) ∈ extraPairs := by
      rw [← h.pairsFixed]
      exact List.mem_map_of_mem _ hmem
    have hcns : staticCombo c = none := by
      by_contra hne
      rw [h.staticKept c hne] at hc
      exact hne hc
    refine ⟨?_, ?_, ?_, ?_, ?_⟩
    · rw [List.map_set, h.pairsFixed]
      apply List.ext_getElem?
      intro j
      rw [List.getElem?_set]
      split
      · next hj =>
        subst hj
        rw [if_pos (by omega)]
        rw [← h.pairsFixed, List.getElem?_map, List.getElem?_eq_getElem h.cursorLt,
          hget]
        rfl
      · rfl
    · rw [List.length_set]
      exact Nat.mod_lt _ (by omega)
    · intro e he c' hc'
      rcases List.mem_or_eq_of_mem_set he with hmem' | rfl
      · exact h.extraNonStatic e hmem' c' hc'
      · simp only [Option.some.injEq] at hc'
        subst hc'
        exact hcns
    · intro x hx
      dsimp only
      rw [if_neg, if_neg]
      · exact h.staticKept x hx
      · rcases ho : (st.extraMaps.getD st.nextExtra (0, 0, none)).2.2 with _ | w
        · simp
        · have hw := h.extraNonStatic _ hmem w ho
          intro hsx
          rw [Option.some.injEq] at hsx
          subst hsx
          exact hx hw
      · intro hxc
        subst hxc
        exact hx hcns
    · intro p hp
      dsimp only
      rw [if_neg, h.keymapKept p hp]
      rintro ⟨h1, h2⟩
      exact static_extra_slots_disjoint p hp (h1 ▸ h2 ▸ hslot)
  · -- found branch: state unchanged
    simp only [s2cChar, hc]
    exact h

/-- The invariant is preserved by a whole `string_to_combos` call. -/
theorem s2cList_inv (ks : Nat → Nat) (cs : List Nat) :
    ∀ st, SynthInv ks st → SynthInv ks (s2cList ks st cs).1 := by
  induction cs with
  | nil =>
    intro st h
    exact h
  | cons c cs ih =>
    intro st h
    simp only [s2cList]
    exact ih _ (s2cChar_inv ks st c h)

/-- A static character takes the found branch: no state change, the combo
comes from the static table, no dirty flag. -/
theorem s2cChar_static (ks : Nat → Nat) (st : SynthState) (c : Nat)
    (h : SynthInv ks st) (hc : staticCombo c ≠ none) :
    s2cChar ks st c = (st, (staticCombo c).getD (0, 0), false) := by
  have hcc := h.staticKept c hc
  rcases hs : staticCombo c with _ | v
  · exact absurd hs hc
  · rw [hs] at hcc
    simp only [s2cChar, hcc]
    rfl

theorem s2cList_static (ks : Nat → Nat) (cs : List Nat) :
    ∀ st, SynthInv ks st → (∀ c ∈ cs, staticCombo c ≠ none) →
    s2cList ks st cs = (st, cs.filterMap staticCombo, false) := by
  induction cs with
  | nil =>
    intro st _ _
    rfl
  | cons c cs ih =>
    intro st h hall
    have hc := hall c (List.mem_cons_self c cs)
    simp only [s2cList, s2cChar_static ks st c h hc]
    rw [ih st h fun c' hc' => hall c' (List.mem_cons_of_mem _ hc')]
    rcases hs : staticCombo c with _ | v
    · exact absurd hs hc
    · simp [List.filterMap_cons, hs]

/-- Claim C7: on any reachable layout state, a string of only static-region
characters resolves without marking the keymap dirty, to the combos of the
construction-time static table, leaving the state unchanged — so repeating
the call gives the identical result — and no `string_to_combos` call, on any
string whatsoever, ever changes a static character's binding or a static
slot of the keymap from its construction-time value. -/
theorem c7_static_region (ks : Nat → Nat) (st : SynthState) (cs : List Nat)
    (hinv : SynthInv ks st) :
    ((∀ c ∈ cs, staticCombo c ≠ none) →
      stringToCombos ks st cs = ((false, cs.filterMap staticCombo), st) ∧
      stringToCombos ks (stringToCombos ks st cs).2 cs = stringToCombos ks st cs) ∧
    (∀ c, staticCombo c ≠ none →
      ((stringToCombos ks st cs).2).charToCombo c = staticCombo c) ∧
    (∀ p ∈ staticPairs,
      ((stringToCombos ks st cs).2).keymap p.2.1 p.2.2 = some (ks p.1)) := by
  refine ⟨?_, ?_, ?_⟩
  · intro hall
    have h1 : stringToCombos ks st cs = ((false, cs.filterMap staticCombo), st) := by
      rw [stringToCombos, s2cList_static ks cs st hinv hall]
    refine ⟨h1, ?_⟩
    rw [h1]
    exact h1
  · intro c hc
    exact (s2cList_inv ks cs st hinv).staticKept c hc
  · intro p hp
    exact (s2cList_inv ks cs st hinv).keymapKept p hp

theorem c7_static_region_witness :
    stringToCombos (fun c => c) (initSynth fun c => c) [72, 105] =
      ((false, [(41, 0), (74, 0)]), initSynth fun c => c) := by
  have h := ((c7_static_region (fun c => c) (initSynth fun c => c) [72, 105]
    (synthInv_init fun c => c)).1 (by decide)).1
  rw [h]
  rfl

/-! ## Claim C6: FIFO eviction of the dynamic pool

`FreshFill ks st pre` characterises the layout state after a freshly
constructed layout has bound the pairwise-distinct non-static characters
`pre`, in order: slot `j` of the pool holds `pre[j]` for `j < pre.length`,
the cursor sits at `pre.length` (mod pool size), and the lookup table is the
static table overlaid with the `pre` bindings. -/

/-- Lookup in a partially filled pool: the binding of the first occurrence
of `x` in `pre` (slot `j` of `Q` for position `j`), else the static table. -/
def fillLookup (Q : List (Nat × Nat)) (pre : List Nat) (x : Nat) :
    Option (Nat × Nat) :=
  match (pre.zip Q).find? (fun e => e.1 == x) with
  | some e => some (e.2.1, comboOfLevel e.2.2)
  | none => staticCombo x

def FreshFill (st : SynthState) (pre : List Nat) : Prop :=
  st.extraMaps.length = extraPairs.length ∧
  (∀ j, st.extraMaps[j]? = (extraPairs[j]?).map fun p =>
      (p.1, p.2, if j < pre.length then some (pre.getD j 0) else none)) ∧
  st.nextExtra = pre.length % extraPairs.length ∧
  (∀ x, st.charToCombo x = fillLookup extraPairs pre x)

theorem zipfind_none (pre : List Nat) (Q : List (Nat × Nat)) (x : Nat)
    (hx : x ∉ pre) : (pre.zip Q).find? (fun e => e.1 == x) = none := by
  rw [List.find?_eq_none]
  rintro ⟨a, b⟩ he
  have := (List.of_mem_zip he).1
  simp only [beq_iff_eq]
  intro hax
  exact hx (hax ▸ this)

theorem zipfind_hit (pre : List Nat) :
    ∀ (Q : List (Nat × Nat)) (i : Nat), pre.Nodup → i < pre.length →
      i < Q.length →
      (pre.zip Q).find? (fun e => e.1 == pre.getD i 0) =
        some (pre.getD i 0, Q.getD i (0, 0)) := by
  induction pre with
  | nil =>
    intro Q i _ hi _
    exact absurd hi (by simp)
  | cons p pre ih =>
    intro Q i hnd hi hiQ
    match Q with
    | [] => exact absurd hiQ (by simp)
    | q :: Q =>
      match i with
      | 0 => simp [List.find?_cons]
      | i + 1 =>
        have hmem : pre.getD i 0 ∈ pre := by
          rw [List.getD_eq_getElem?_getD,
            List.getElem?_eq_getElem (by simpa using hi)]
          exact List.getElem_mem _
        have hne : (p == (p :: pre).getD (i + 1) 0) = false := by
          simp only [List.getD_cons_succ, beq_eq_false_iff_ne, ne_eq]
          intro hcontra
          exact (List.nodup_cons.1 hnd).1 (hcontra ▸ hmem)
        rw [List.zip_cons_cons, List.find?_cons]
        dsimp only
        rw [hne]
        simp only [List.getD_cons_succ]
        exact ih Q i (List.nodup_cons.1 hnd).2 (by simpa using hi)
          (by simpa using hiQ)

theorem freshFill_init (ks : Nat → Nat) :
    FreshFill (initSynth ks) [] := by
  refine ⟨by simp [initSynth], ?_, by simp [initSynth], fun x => rfl⟩
  intro j
  show (extraPairs.map fun p => (p.1, p.2, (none : Option Nat)))[j]? = _
  rw [List.getElem?_map]
  simp

theorem fillLookup_snoc (pre : List Nat) :
    ∀ (Q : List (Nat × Nat)) (c x : Nat), pre.length < Q.length → c ∉ pre →
      fillLookup Q (pre ++ [c]) x =
        if x = c then
          some ((Q.getD pre.length (0, 0)).1,
            comboOfLevel (Q.getD pre.length (0, 0)).2)
        else fillLookup Q pre x := by
  induction pre with
  | nil =>
    intro Q c x hlen _
    match Q with
    | [] => exact absurd hlen (by simp)
    | q :: Q =>
      by_cases hx : x = c
      · subst hx
        simp [fillLookup, List.find?_cons]
      · have hb : (c == x) = false := beq_eq_false_iff_ne.2 (Ne.symm hx)
        rw [if_neg hx]
        simp [fillLookup, List.find?_cons, hb]
  | cons p pre ih =>
    intro Q c x hlen hc
    match Q with
    | [] => exact absurd hlen (by simp)
    | q :: Q =>
      have hcp : c ∉ pre := fun h => hc (List.mem_cons_of_mem _ h)
      by_cases hxp : x = p
      · subst hxp
        have hxc : x ≠ c := fun h => hc (h ▸ List.mem_cons_self x pre)
        rw [if_neg hxc]
        simp [fillLookup, List.find?_cons]
      · have hb : (p == x) = false := by simpa using (Ne.symm hxp)
        have h1 : fillLookup (q :: Q) ((p :: pre) ++ [c]) x =
            fillLookup Q (pre ++ [c]) x := by
          simp [fillLookup, List.find?_cons, hb]
        have h2 : fillLookup (q :: Q) (p :: pre) x = fillLookup Q pre x := by
          simp [fillLookup, List.find?_cons, hb]
        rw [h1, h2, ih Q c x (by simpa using hlen) hcp]
        rfl

/-- The state produced by the allocation branch when slot `pre.length` is
claimed for `c` (no previous occupant). -/
def freshStepState (ks : Nat → Nat) (st : SynthState) (pre : List Nat) (c : Nat) :
    SynthState where
  keymap a b :=
    if a = (extraPairs.getD pre.length (0, 0)).1 ∧
       b = (extraPairs.getD pre.length (0, 0)).2 then some (ks c)
    else st.keymap a b
  charToCombo x :=
    if x = c then some ((extraPairs.getD pre.length (0, 0)).1,
      comboOfLevel (extraPairs.getD pre.length (0, 0)).2)
    else if some x = (none : Option Nat) then none
    else st.charToCombo x
  nextExtra := (st.nextExtra + 1) % st.extraMaps.length
  extraMaps := st.extraMaps.set st.nextExtra
    ((extraPairs.getD pre.length (0, 0)).1,
     (extraPairs.getD pre.length (0, 0)).2, some c)

theorem s2cChar_freshStep (ks : Nat → Nat) (st : SynthState) (pre : List Nat)
    (c : Nat) (hf : FreshFill st pre) (hlen : pre.length < extraPairs.length)
    (hstat : staticCombo c = none) (hnew : c ∉ pre) :
    ∃ st2, s2cChar ks st c =
      (st2, ((extraPairs.getD pre.length (0, 0)).1,
        comboOfLevel (extraPairs.getD pre.length (0, 0)).2), true) ∧
      FreshFill st2 (pre ++ [c]) := by
  obtain ⟨hL, hmaps, hcur, hcc⟩ := hf
  have hnone : st.charToCombo c = none := by
    rw [hcc]
    unfold fillLookup
    rw [zipfind_none pre extraPairs c hnew]
    exact hstat
  have hicur : st.nextExtra = pre.length := by
    rw [hcur, Nat.mod_eq_of_lt hlen]
  have hPj : extraPairs[pre.length]? = some (extraPairs.getD pre.length (0, 0)) := by
    rw [List.getD_eq_getElem?_getD, List.getElem?_eq_getElem hlen]
    rfl
  have he : st.extraMaps.getD st.nextExtra (0, 0, none) =
      ((extraPairs.getD pre.length (0, 0)).1,
       (extraPairs.getD pre.length (0, 0)).2, none) := by
    rw [List.getD_eq_getElem?_getD, hicur, hmaps pre.length, hPj]
    simp
  refine ⟨freshStepState ks st pre c, ?_, ?_, ?_, ?_, ?_⟩
  · simp only [s2cChar, hnone, he, freshStepState]
  · -- pool length unchanged
    show (st.extraMaps.set _ _).length = _
    rw [List.length_set]
    exact hL
  · -- pool contents: slot `pre.length` now holds `c`
    intro j
    show (st.extraMaps.set _ _)[j]? = _
    rw [List.getElem?_set]
    by_cases hj : st.nextExtra = j
    · rw [if_pos hj, if_pos (by omega), ← hj, hicur, hPj]
      have hgetc : (pre ++ [c]).getD pre.length 0 = c := by
        rw [List.getD_eq_getElem?_getD, List.getElem?_append,
          if_neg (by omega)]
        simp
      simp [hgetc]
    · rw [if_neg hj, hmaps j]
      rcases hep : extraPairs[j]? with _ | p
      · rfl
      · simp only [Option.map_some']
        have hjne : j ≠ pre.length := fun h => hj (hicur.trans h.symm)
        by_cases hj2 : j < pre.length
        · have hgete : (pre ++ [c]).getD j 0 = pre.getD j 0 := by
            rw [List.getD_eq_getElem?_getD, List.getElem?_append, if_pos hj2,
              List.getD_eq_getElem?_getD]
          rw [if_pos hj2, if_pos (by simp; omega), hgete]
        · rw [if_neg hj2, if_neg (by simp; omega)]
  · -- cursor advanced
    show (st.nextExtra + 1) % st.extraMaps.length = _
    rw [hicur, hL, List.length_append]
    simp
  · -- lookup table: `c` overlaid
    intro x
    rw [fillLookup_snoc pre extraPairs c x hlen hnew]
    show (if x = c then _ else if some x = (none : Option Nat) then none
      else st.charToCombo x) = _
    by_cases hx : x = c
    · rw [if_pos hx, if_pos hx]
    · rw [if_neg hx, if_neg hx, if_neg (by simp), hcc]

theorem s2cList_freshFill (ks : Nat → Nat) (cs : List Nat) :
    ∀ (pre : List Nat) (st : SynthState), FreshFill st pre →
      pre.length + cs.length ≤ extraPairs.length →
      (∀ c ∈ cs, staticCombo c = none) →
      (∀ c ∈ cs, c ∉ pre) →
      cs.Nodup →
      FreshFill (s2cList ks st cs).1 (pre ++ cs) := by
  induction cs with
  | nil =>
    intro pre st hf _ _ _ _
    simpa using hf
  | cons c cs ih =>
    intro pre st hf hlen hstat hnotin hnd
    obtain ⟨st2, hstep, hf2⟩ := s2cChar_freshStep ks st pre c hf
      (by simp at hlen; omega) (hstat c (List.mem_cons_self c cs))
      (hnotin c (List.mem_cons_self c cs))
    simp only [s2cList, hstep]
    have hrec := ih (pre ++ [c]) st2 hf2
      (by simp at hlen ⊢; omega)
      (fun c' hc' => hstat c' (List.mem_cons_of_mem _ hc'))
      (fun c' hc' => by
        simp only [List.mem_append, List.mem_singleton]
        rintro (hin | rfl)
        · exact hnotin c' (List.mem_cons_of_mem _ hc') hin
        · exact (List.nodup_cons.1 hnd).1 hc')
      (List.nodup_cons.1 hnd).2
    simpa [List.append_assoc] using hrec

theorem s2cList_append (ks : Nat → Nat) (l1 l2 : List Nat) :
    ∀ st, s2cList ks st (l1 ++ l2) =
      ((s2cList ks (s2cList ks st l1).1 l2).1,
       (s2cList ks st l1).2.1 ++ (s2cList ks (s2cList ks st l1).1 l2).2.1,
       ((s2cList ks st l1).2.2 || (s2cList ks (s2cList ks st l1).1 l2).2.2)) := by
  induction l1 with
  | nil =>
    intro st
    simp [s2cList]
  | cons c l1 ih =>
    intro st
    simp only [List.cons_append, s2cList, List.append_eq]
    rw [ih ((s2cChar ks st c).1)]
    simp [Bool.or_assoc]

/-- The state produced by the allocation branch when the rotation cursor
wraps to slot 0 and evicts its occupant (the earliest-bound character). -/
def wrapStepState (ks : Nat → Nat) (st : SynthState) (csA : List Nat) (c : Nat) :
    SynthState where
  keymap a b :=
    if a = (extraPairs.getD 0 (0, 0)).1 ∧
       b = (extraPairs.getD 0 (0, 0)).2 then some (ks c)
    else st.keymap a b
  charToCombo x :=
    if x = c then some ((extraPairs.getD 0 (0, 0)).1,
      comboOfLevel (extraPairs.getD 0 (0, 0)).2)
    else if some x = some (csA.getD 0 0) then none
    else st.charToCombo x
  nextExtra := (st.nextExtra + 1) % st.extraMaps.length
  extraMaps := st.extraMaps.set st.nextExtra
    ((extraPairs.getD 0 (0, 0)).1, (extraPairs.getD 0 (0, 0)).2, some c)

/-- Once the pool is full, the next fresh character wraps the cursor to
slot 0, evicting the earliest-bound character and leaving every other
bound character resident. -/
theorem s2cChar_wrap (ks : Nat → Nat) (st : SynthState) (csA : List Nat) (c : Nat)
    (hf : FreshFill st csA)
    (hlenA : csA.length = extraPairs.length)
    (hstat : staticCombo c = none)
    (hnew : c ∉ csA)
    (hnd : csA.Nodup) :
    s2cChar ks st c =
      (wrapStepState ks st csA c,
       ((extraPairs.getD 0 (0, 0)).1, comboOfLevel (extraPairs.getD 0 (0, 0)).2),
       true) ∧
    (wrapStepState ks st csA c).charToCombo (csA.getD 0 0) = none ∧
    (∀ i, 0 < i → i < csA.length →
      (wrapStepState ks st csA c).charToCombo (csA.getD i 0) ≠ none) ∧
    (wrapStepState ks st csA c).charToCombo c ≠ none ∧
    (wrapStepState ks st csA c).nextExtra = 1 % extraPairs.length ∧
    (wrapStepState ks st csA c).extraMaps.length = extraPairs.length ∧
    (1 < extraPairs.length →
      (wrapStepState ks st csA c).extraMaps.getD 1 (0, 0, none) =
        ((extraPairs.getD 1 (0, 0)).1, (extraPairs.getD 1 (0, 0)).2,
         some (csA.getD 1 0))) := by
  obtain ⟨hL, hmaps, hcur, hcc⟩ := hf
  have hn : 0 < extraPairs.length := by decide
  have hcsA0 : 0 < csA.length := hlenA ▸ hn
  have hmem0 : csA.getD 0 0 ∈ csA := by
    rw [List.getD_eq_getElem?_getD, List.getElem?_eq_getElem hcsA0]
    exact List.getElem_mem _
  have hnone : st.charToCombo c = none := by
    rw [hcc]
    unfold fillLookup
    rw [zipfind_none csA extraPairs c hnew]
    exact hstat
  have hicur : st.nextExtra = 0 := by
    rw [hcur, hlenA, Nat.mod_self]
  have hP0 : extraPairs[0]? = some (extraPairs.getD 0 (0, 0)) := by
    rw [List.getD_eq_getElem?_getD, List.getElem?_eq_getElem hn]
    rfl
  have he : st.extraMaps.getD st.nextExtra (0, 0, none) =
      ((extraPairs.getD 0 (0, 0)).1, (extraPairs.getD 0 (0, 0)).2,
       some (csA.getD 0 0)) := by
    rw [List.getD_eq_getElem?_getD, hicur, hmaps 0, hP0]
    simp [hcsA0]
  refine ⟨?_, ?_, ?_, ?_, ?_, ?_, ?_⟩
  · simp only [s2cChar, hnone, he, wrapStepState]
  · show (if csA.getD 0 0 = c then _
          else if some (csA.getD 0 0) = some (csA.getD 0 0) then none
          else st.charToCombo (csA.getD 0 0)) = none
    rw [if_neg (fun h : csA.getD 0 0 = c => hnew (h ▸ hmem0)), if_pos rfl]
  · intro i hi0 hilen
    have hmemi : csA.getD i 0 ∈ csA := by
      rw [List.getD_eq_getElem?_getD, List.getElem?_eq_getElem hilen]
      exact List.getElem_mem _
    have hne0 : csA.getD i 0 ≠ csA.getD 0 0 := by
      rw [List.getD_eq_getElem?_getD, List.getD_eq_getElem?_getD,
        List.getElem?_eq_getElem hilen, List.getElem?_eq_getElem hcsA0]
      simp only [Option.getD_some, ne_eq, hnd.getElem_inj_iff]
      omega
    show (if csA.getD i 0 = c then _
          else if some (csA.getD i 0) = some (csA.getD 0 0) then none
          else st.charToCombo (csA.getD i 0)) ≠ none
    rw [if_neg (fun h : csA.getD i 0 = c => hnew (h ▸ hmemi)),
      if_neg (by simpa using hne0), hcc]
    unfold fillLookup
    rw [zipfind_hit csA extraPairs i hnd hilen (hlenA ▸ hilen)]
    simp
  · show (if c = c then some _ else _) ≠ none
    rw [if_pos rfl]
    simp
  · show (st.nextExtra + 1) % st.extraMaps.length = 1 % extraPairs.length
    rw [hicur, hL]
  · show (st.extraMaps.set _ _).length = _
    rw [List.length_set]
    exact hL
  · intro h1n
    show (st.extraMaps.set st.nextExtra _).getD 1 (0, 0, none) = _
    rw [List.getD_eq_getElem?_getD, List.getElem?_set, if_neg (by omega), hmaps 1,
      List.getD_eq_getElem?_getD (l := extraPairs), List.getElem?_eq_getElem h1n]
    simp [show 1 < csA.length by omega]

/-- Claim C6: feeding a freshly constructed layout one more distinct
non-static character than the extra-slot pool holds (pool size + 1) reports
the keymap dirty and evicts exactly the earliest-bound character — its
`_char_to_combo` entry is removed while every other character stays
resident (FIFO by the rotation cursor) — and re-requesting the evicted
character claims the next slot in rotation (slot 1), returning
`updated = true` with a combo different from the character's original
slot-0 combo. -/
theorem c6_fifo_eviction (ks : Nat → Nat) (cs : List Nat)
    (hlen : cs.length = extraPairs.length + 1)
    (hnd : cs.Nodup)
    (hfresh : ∀ c ∈ cs, staticCombo c = none) :
    (s2cList ks (initSynth ks) cs).2.2 = true ∧
    (s2cList ks (initSynth ks) cs).1.charToCombo (cs.getD 0 0) = none ∧
    (∀ i, 0 < i → i < cs.length →
      (s2cList ks (initSynth ks) cs).1.charToCombo (cs.getD i 0) ≠ none) ∧
    (∃ st3, s2cList ks (s2cList ks (initSynth ks) cs).1 [cs.getD 0 0] =
      (st3, [((extraPairs.getD 1 (0, 0)).1,
        comboOfLevel (extraPairs.getD 1 (0, 0)).2)], true)) ∧
    ((extraPairs.getD 1 (0, 0)).1, comboOfLevel (extraPairs.getD 1 (0, 0)).2) ≠
      ((extraPairs.getD 0 (0, 0)).1, comboOfLevel (extraPairs.getD 0 (0, 0)).2) := by
  have hn : 0 < extraPairs.length := by decide
  have hnlt : extraPairs.length < cs.length := by omega
  have htake : cs.take extraPairs.length ++ cs.drop extraPairs.length = cs :=
    List.take_append_drop _ _
  have hdrop : cs.drop extraPairs.length = [cs.getD extraPairs.length 0] := by
    rw [List.drop_eq_getElem_cons hnlt, List.drop_eq_nil_of_le (by omega)]
    simp [List.getD_eq_getElem?_getD, List.getElem?_eq_getElem hnlt]
  have hsplit : cs = cs.take extraPairs.length ++ [cs.getD extraPairs.length 0] := by
    conv_lhs => rw [← htake]
    rw [hdrop]
  have hlenA : (cs.take extraPairs.length).length = extraPairs.length := by
    rw [List.length_take]
    omega
  have hndSplit : (cs.take extraPairs.length ++
      [cs.getD extraPairs.length 0]).Nodup := hsplit ▸ hnd
  rcases List.nodup_append.1 hndSplit with ⟨hndA, _, hdisj⟩
  have hnewL : cs.getD extraPairs.length 0 ∉ cs.take extraPairs.length :=
    fun hmem => hdisj hmem (List.mem_singleton.2 rfl)
  have hmemL : cs.getD extraPairs.length 0 ∈ cs := by
    rw [List.getD_eq_getElem?_getD, List.getElem?_eq_getElem hnlt]
    exact List.getElem_mem _
  have hstatL : staticCombo (cs.getD extraPairs.length 0) = none := hfresh _ hmemL
  have hfreshA : ∀ c ∈ cs.take extraPairs.length, staticCombo c = none :=
    fun c hc => hfresh c (List.mem_of_mem_take hc)
  have hfA := s2cList_freshFill ks (cs.take extraPairs.length) [] (initSynth ks)
    (freshFill_init ks) (by simpa [hlenA]) hfreshA (by simp) hndA
  rw [List.nil_append] at hfA
  obtain ⟨hstep, hev, hres, hbound, hcur2, _, hslot1⟩ :=
    s2cChar_wrap ks (s2cList ks (initSynth ks) (cs.take extraPairs.length)).1
      (cs.take extraPairs.length) (cs.getD extraPairs.length 0)
      hfA hlenA hstatL hnewL hndA
  have hstate : (s2cList ks (initSynth ks) cs).1 =
      wrapStepState ks (s2cList ks (initSynth ks) (cs.take extraPairs.length)).1
        (cs.take extraPairs.length) (cs.getD extraPairs.length 0) := by
    conv_lhs => rw [hsplit, s2cList_append]
    simp only [s2cList, hstep]
  have hC0 : cs.getD 0 0 = (cs.take extraPairs.length).getD 0 0 := by
    rw [List.getD_eq_getElem?_getD, List.getD_eq_getElem?_getD, List.getElem?_take,
      if_pos hn]
  refine ⟨?_, ?_, ?_, ?_, by decide⟩
  · conv_lhs => rw [hsplit, s2cList_append]
    simp only [s2cList, hstep]
    simp
  · rw [hstate, hC0]
    exact hev
  · intro i hi0 hilen
    rw [hstate]
    by_cases hin : i < extraPairs.length
    · have hCi : cs.getD i 0 = (cs.take extraPairs.length).getD i 0 := by
        rw [List.getD_eq_getElem?_getD, List.getD_eq_getElem?_getD,
          List.getElem?_take, if_pos hin]
      rw [hCi]
      exact hres i hi0 (by omega)
    · have hieq : i = extraPairs.length := by omega
      subst hieq
      exact hbound
  · have hcur1 : (wrapStepState ks
        (s2cList ks (initSynth ks) (cs.take extraPairs.length)).1
        (cs.take extraPairs.length) (cs.getD extraPairs.length 0)).nextExtra = 1 := by
      rw [hcur2]
      decide
    have hlook : (wrapStepState ks
        (s2cList ks (initSynth ks) (cs.take extraPairs.length)).1
        (cs.take extraPairs.length) (cs.getD extraPairs.length 0)).charToCombo
          (cs.getD 0 0) = none := by
      rw [hC0]
      exact hev
    have hgoal : (s2cList ks (s2cList ks (initSynth ks) cs).1 [cs.getD 0 0]).2 =
        ([((extraPairs.getD 1 (0, 0)).1, comboOfLevel (extraPairs.getD 1 (0, 0)).2)],
         true) := by
      rw [hstate]
      simp only [s2cList, s2cChar, hlook, hcur1, hslot1 (by decide)]
      simp
    exact ⟨(s2cList ks (s2cList ks (initSynth ks) cs).1 [cs.getD 0 0]).1,
      Prod.ext rfl hgoal⟩

set_option maxHeartbeats 4000000 in
theorem c6_fifo_eviction_witness :
    (s2cList (fun c => c) (initSynth fun c => c) (List.range' 1000 304)).2.2 = true ∧
    (s2cList (fun c => c) (initSynth fun c => c)
        (List.range' 1000 304)).1.charToCombo ((List.range' 1000 304).getD 0 0) =
      none ∧
    (∀ i, 0 < i → i < (List.range' 1000 304).length →
      (s2cList (fun c => c) (initSynth fun c => c)
          (List.range' 1000 304)).1.charToCombo
        ((List.range' 1000 304).getD i 0) ≠ none) ∧
    (∃ st3, s2cList (fun c => c)
        (s2cList (fun c => c) (initSynth fun c => c) (List.range' 1000 304)).1
        [(List.range' 1000 304).getD 0 0] =
      (st3, [((extraPairs.getD 1 (0, 0)).1,
        comboOfLevel (extraPairs.getD 1 (0, 0)).2)], true)) ∧
    ((extraPairs.getD 1 (0, 0)).1, comboOfLevel (extraPairs.getD 1 (0, 0)).2) ≠
      ((extraPairs.getD 0 (0, 0)).1, comboOfLevel (extraPairs.getD 0 (0, 0)).2) :=
  c6_fifo_eviction (fun c => c) (List.range' 1000 304) (by decide) (by decide)
    (by decide)

/-! ## Claim C8: `KeyComboLayout` name-collision tie-break -/

/-- A two-key abstract keymap: keycode 10 carries keysym 65 (`"A"`) at
level 1 only, keycode 11 carries keysym 97 (`"a"`) at level 0.  Both names
normalize to `"a"`, so the name is discovered at level 1 (keycode 10) first
and at level 0 (keycode 11) second. -/
def c8sym : Nat → Option (List Nat) :=
  fun k => if k = 65 then some [65] else if k = 97 then some [97] else none

/-- Claim C8, counterexample: in the keymap above the name `"a"` is present
at both level 0 and level 1, yet resolves to the level-1 binding
`(10 - 8, 0) = (2, 0)`, not the level-0 binding `(11 - 8, 0) = (3, 0)`:
the second (level-0) discovery is skipped because its keysym 97 was never
recorded in `keysym_level`, so the guard `level >= keysym_level.get(keysym, 0)`
compares against the default 0. -/
theorem c8_counterexample :
    (kclRun c8sym (modsTable []) [⟨10, [[], [65]]⟩, ⟨11, [[97]]⟩]).map
      (fun st => st.combos [97]) = some (some (2, 0)) ∧
    some (some ((2 : Nat), (0 : Nat))) ≠ some (some ((3 : Nat), (0 : Nat))) :=
  ⟨rfl, by decide⟩

/-- The `(keycode, level, keysyms)` entries of a keymap, in the iteration
order of the nested loops of `KeyComboLayout.__init__`. -/
def kmEntries (km : List XkbKey) : List (Nat × Nat × List Nat) :=
  km.flatMap fun k => k.levels.enum.map fun p => (k.keycode, p.1, p.2)

/-- The loop body on a flattened entry. -/
def kclEntryT (symName : Nat → Option (List Nat)) (mods : List Nat → Option Nat)
    (st : KclSt) (e : Nat × Nat × List Nat) : Option KclSt :=
  kclEntry symName mods st e.1 e.2.1 e.2.2

theorem kclRun_eq_entries (symName : Nat → Option (List Nat))
    (mods : List Nat → Option Nat) (km : List XkbKey) :
    kclRun symName mods km =
      (kmEntries km).foldlM (kclEntryT symName mods) initKcl := by
  suffices h : ∀ (l : List XkbKey) (st : KclSt),
      l.foldlM (kclKey symName mods) st =
        (kmEntries l).foldlM (kclEntryT symName mods) st from h km initKcl
  intro l
  induction l with
  | nil =>
    intro st
    rfl
  | cons k l ih =>
    intro st
    show (kclKey symName mods st k).bind _ = _
    rw [kmEntries, List.flatMap_cons, List.foldlM_append]
    have hkey : kclKey symName mods st k =
        (k.levels.enum.map fun p => (k.keycode, p.1, p.2)).foldlM
          (kclEntryT symName mods) st := by
      rw [kclKey, List.foldlM_map]
      rfl
    rw [← hkey]
    show _ = (kclKey symName mods st k).bind _
    rcases kclKey symName mods st k with _ | st'
    · rfl
    · exact ih st'

/-- Whether an entry is a valid discovery of the normalized name `nm`:
a single nonzero keysym whose name normalizes to `nm`. -/
def occOf (symName : Nat → Option (List Nat)) (nm : List Nat)
    (e : Nat × Nat × List Nat) : Bool :=
  match e.2.2 with
  | [k] =>
    if k = 0 then false
    else
      match symName k with
      | some raw => (normName raw).1 == nm
      | none => false
  | _ => false

/-- State before any discovery of `nm`: the name is unbound and every
keysym normalizing to `nm` still has the default recorded level 0. -/
def PreInv (symName : Nat → Option (List Nat)) (nm : List Nat) (st : KclSt) :
    Prop :=
  st.combos nm = none ∧
  ∀ k raw, symName k = some raw → strLower raw = nm → st.keysymLevel k = 0

/-- State after the first (level-0) discovery of `nm` bound it to `c`:
the binding is `c` and every keysym normalizing to `nm` has recorded
level 0, which makes every later discovery of `nm` skip. -/
def PostInv (symName : Nat → Option (List Nat)) (nm : List Nat)
    (c : Nat × Nat) (st : KclSt) : Prop :=
  st.combos nm = some c ∧
  ∀ k raw, symName k = some raw → strLower raw = nm → st.keysymLevel k = 0

/-- With no `XF86` names in play, a non-`nm` entry never touches the
binding of `nm` nor the recorded level of any `nm`-keysym. -/
theorem kclEntry_nonocc (symName : Nat → Option (List Nat))
    (mods : List Nat → Option Nat) (nm : List Nat)
    (hno : ∀ k raw, symName k = some raw → xf86Pre.isPrefixOf raw = false)
    (st : KclSt) (e : Nat × Nat × List Nat)
    (hwf : XKB_KEYCODE_OFFSET ≤ e.1)
    (hocc : occOf symName nm e = false) :
    ∃ st', kclEntryT symName mods st e = some st' ∧
      st'.combos nm = st.combos nm ∧
      (∀ k raw, symName k = some raw → strLower raw = nm →
        st'.keysymLevel k = st.keysymLevel k) := by
  obtain ⟨kc, lvl, syms⟩ := e
  match syms with
  | [] => exact ⟨st, rfl, rfl, fun _ _ _ _ => rfl⟩
  | s1 :: s2 :: srest => exact ⟨st, rfl, rfl, fun _ _ _ _ => rfl⟩
  | [k] =>
    by_cases hk0 : k = 0
    · subst hk0
      exact ⟨st, by simp [kclEntryT, kclEntry], rfl, fun _ _ _ _ => rfl⟩
    · rcases hsym : symName k with _ | raw
      · exact ⟨st, by simp [kclEntryT, kclEntry, hk0, hsym], rfl, fun _ _ _ _ => rfl⟩
      · have hnorm : normName raw = (strLower raw, none) := by
          unfold normName
          rw [if_neg (by simp [hno k raw hsym])]
        have hne : strLower raw ≠ nm := by
          have := hocc
          unfold occOf at this
          simp only [hk0, if_false, hsym, hnorm] at this
          simpa using this
        simp only [kclEntryT, kclEntry, hsym, hnorm, if_neg hk0]
        split
        · exact ⟨st, rfl, rfl, fun _ _ _ _ => rfl⟩
        · rw [if_neg (by omega)]
          refine ⟨_, rfl, ?_, ?_⟩
          · show (updFn st.combos (strLower raw) _) nm = st.combos nm
            rw [updFn, if_neg (fun h => hne h.symm)]
          · intro k' raw' hsym' hnm'
            show (if k' = k then lvl else st.keysymLevel k') = st.keysymLevel k'
            rw [if_neg]
            intro hkk
            subst hkk
            rw [hsym'] at hsym
            cases hsym
            exact hne hnm'

/-- The first discovery of `nm`, at level 0, binds it and pins every later
discovery to a skip. -/
theorem kclEntry_firstOcc (symName : Nat → Option (List Nat))
    (mods : List Nat → Option Nat) (nm : List Nat)
    (hno : ∀ k raw, symName k = some raw → xf86Pre.isPrefixOf raw = false)
    (st : KclSt) (e : Nat × Nat × List Nat)
    (hwf : XKB_KEYCODE_OFFSET ≤ e.1)
    (hpre : PreInv symName nm st)
    (hocc : occOf symName nm e = true)
    (hlvl : e.2.1 = 0) :
    ∃ st', kclEntryT symName mods st e = some st' ∧
      PostInv symName nm (e.1 - XKB_KEYCODE_OFFSET, (mods nm).getD 0) st' := by
  obtain ⟨kc, lvl, syms⟩ := e
  simp only at hlvl
  subst hlvl
  match syms with
  | [] => simp [occOf] at hocc
  | s1 :: s2 :: srest => simp [occOf] at hocc
  | [k] =>
    unfold occOf at hocc
    by_cases hk0 : k = 0
    · simp [hk0] at hocc
    · rcases hsym : symName k with _ | raw
      · simp [hk0, hsym] at hocc
      · have hnorm : normName raw = (strLower raw, none) := by
          unfold normName
          rw [if_neg (by simp [hno k raw hsym])]
        have hnm : strLower raw = nm := by
          simp only [hk0, if_false, hsym, hnorm] at hocc
          simpa using hocc
        simp only [kclEntryT, kclEntry, hsym, hnorm, if_neg hk0, hnm]
        rw [if_neg (by rw [hpre.1]; simp), if_neg (by omega)]
        refine ⟨_, rfl, ?_, ?_⟩
        · show (updFn st.combos nm _) nm = _
          rw [updFn, if_pos rfl]
        · intro k' raw' hsym' hnm'
          show (if k' = k then 0 else st.keysymLevel k') = 0
          by_cases hkk : k' = k
          · rw [if_pos hkk]
          · rw [if_neg hkk]
            exact hpre.2 k' raw' hsym' hnm'

/-- After the first discovery, every entry preserves the binding. -/
theorem kclEntry_post (symName : Nat → Option (List Nat))
    (mods : List Nat → Option Nat) (nm : List Nat) (c : Nat × Nat)
    (hno : ∀ k raw, symName k = some raw → xf86Pre.isPrefixOf raw = false)
    (st : KclSt) (e : Nat × Nat × List Nat)
    (hwf : XKB_KEYCODE_OFFSET ≤ e.1)
    (hpost : PostInv symName nm c st) :
    ∃ st', kclEntryT symName mods st e = some st' ∧
      PostInv symName nm c st' := by
  rcases hocc : occOf symName nm e with _ | _
  · obtain ⟨st', heq, hcombos, hlevels⟩ :=
      kclEntry_nonocc symName mods nm hno st e hwf hocc
    refine ⟨st', heq, ?_, ?_⟩
    · rw [hcombos]
      exact hpost.1
    · intro k raw hsym hnm
      rw [hlevels k raw hsym hnm]
      exact hpost.2 k raw hsym hnm
  · obtain ⟨kc, lvl, syms⟩ := e
    match syms with
    | [] => simp [occOf] at hocc
    | s1 :: s2 :: srest => simp [occOf] at hocc
    | [k] =>
      unfold occOf at hocc
      by_cases hk0 : k = 0
      · simp [hk0] at hocc
      · rcases hsym : symName k with _ | raw
        · simp [hk0, hsym] at hocc
        · have hnorm : normName raw = (strLower raw, none) := by
            unfold normName
            rw [if_neg (by simp [hno k raw hsym])]
          have hnm : strLower raw = nm := by
            simp only [hk0, if_false, hsym, hnorm] at hocc
            simpa using hocc
          refine ⟨st, ?_, hpost⟩
          simp only [kclEntryT, kclEntry, hsym, hnorm, if_neg hk0, hnm]
          rw [if_pos ⟨by rw [hpost.1]; simp, by rw [hpost.2 k raw hsym hnm]; omega⟩]

theorem kclFold_post (symName : Nat → Option (List Nat))
    (mods : List Nat → Option Nat) (nm : List Nat) (c : Nat × Nat)
    (hno : ∀ k raw, symName k = some raw → xf86Pre.isPrefixOf raw = false)
    (es : List (Nat × Nat × List Nat)) :
    ∀ st, (∀ e ∈ es, XKB_KEYCODE_OFFSET ≤ e.1) → PostInv symName nm c st →
      ∃ st', es.foldlM (kclEntryT symName mods) st = some st' ∧
        PostInv symName nm c st' := by
  induction es with
  | nil =>
    intro st _ hpost
    exact ⟨st, rfl, hpost⟩
  | cons e es ih =>
    intro st hwf hpost
    obtain ⟨st1, heq, hpost1⟩ := kclEntry_post symName mods nm c hno st e
      (hwf e (List.mem_cons_self e es)) hpost
    obtain ⟨st', heq', hpost'⟩ := ih st1
      (fun e' he' => hwf e' (List.mem_cons_of_mem _ he')) hpost1
    refine ⟨st', ?_, hpost'⟩
    rw [List.foldlM_cons, heq]
    exact heq'

theorem kclFold_pre (symName : Nat → Option (List Nat))
    (mods : List Nat → Option Nat) (nm : List Nat) (kc0 : Nat) (syms0 : List Nat)
    (hno : ∀ k raw, symName k = some raw → xf86Pre.isPrefixOf raw = false)
    (es : List (Nat × Nat × List Nat)) :
    ∀ st, (∀ e ∈ es, XKB_KEYCODE_OFFSET ≤ e.1) → PreInv symName nm st →
      (es.filter (occOf symName nm)).head? = some (kc0, 0, syms0) →
      ∃ st', es.foldlM (kclEntryT symName mods) st = some st' ∧
        st'.combos nm = some (kc0 - XKB_KEYCODE_OFFSET, (mods nm).getD 0) := by
  induction es with
  | nil =>
    intro st _ _ hocc
    simp at hocc
  | cons e es ih =>
    intro st hwf hpre hocc
    rcases ho : occOf symName nm e with _ | _
    · rw [List.filter_cons_of_neg (by simp [ho])] at hocc
      obtain ⟨st1, heq, hcombos, hlevels⟩ := kclEntry_nonocc symName mods nm hno
        st e (hwf e (List.mem_cons_self e es)) ho
      have hpre1 : PreInv symName nm st1 := by
        refine ⟨?_, ?_⟩
        · rw [hcombos]
          exact hpre.1
        · intro k raw hsym hnm
          rw [hlevels k raw hsym hnm]
          exact hpre.2 k raw hsym hnm
      obtain ⟨st', heq', hval⟩ := ih st1
        (fun e' he' => hwf e' (List.mem_cons_of_mem _ he')) hpre1 hocc
      refine ⟨st', ?_, hval⟩
      rw [List.foldlM_cons, heq]
      exact heq'
    · rw [List.filter_cons_of_pos (by simp [ho])] at hocc
      rw [List.head?_cons, Option.some.injEq] at hocc
      have hlvl : e.2.1 = 0 := by
        rw [hocc]
      have hkc : e.1 = kc0 := by
        rw [hocc]
      obtain ⟨st1, heq, hpost1⟩ := kclEntry_firstOcc symName mods nm hno st e
        (hwf e (List.mem_cons_self e es)) hpre ho hlvl
      obtain ⟨st', heq', hpost'⟩ := kclFold_post symName mods nm _ hno es st1
        (fun e' he' => hwf e' (List.mem_cons_of_mem _ he')) hpost1
      refine ⟨st', ?_, ?_⟩
      · rw [List.foldlM_cons, heq]
        exact heq'
      · rw [hpost'.1, hkc]

/-- Claim C8, amended: the tie-break is first-discovered-wins only when the
lowest-level occurrence is iterated first.  Precisely: in a keymap without
`XF86`-prefixed names (so no alias writes) whose first valid discovery of a
normalized name `nm` — in keycode-major, level-minor iteration order — is
at level 0 with keycode `kc0`, every later discovery of `nm` is skipped and
the final table maps `nm` to that first, level-0 binding
`(kc0 - 8, modifiers.get(nm, 0))`.  (When the name is first discovered at a
higher level via a different keysym, a later level-0 discovery is ignored —
see the counterexample — because the skip guard consults `keysym_level` by
keysym, not by name.) -/
theorem c8_first_level0_wins (symName : Nat → Option (List Nat))
    (mods : List Nat → Option Nat) (km : List XkbKey) (nm : List Nat)
    (kc0 : Nat) (syms0 : List Nat)
    (hno : ∀ k raw, symName k = some raw → xf86Pre.isPrefixOf raw = false)
    (hwf : ∀ k ∈ km, XKB_KEYCODE_OFFSET ≤ k.keycode)
    (hocc : ((kmEntries km).filter (occOf symName nm)).head? =
      some (kc0, 0, syms0)) :
    ∃ st, kclRun symName mods km = some st ∧
      st.combos nm = some (kc0 - XKB_KEYCODE_OFFSET, (mods nm).getD 0) := by
  rw [kclRun_eq_entries]
  refine kclFold_pre symName mods nm kc0 syms0 hno (kmEntries km) initKcl ?_ ?_ hocc
  · intro e he
    rw [kmEntries, List.mem_flatMap] at he
    obtain ⟨key, hk, hmem⟩ := he
    obtain ⟨p, _, rfl⟩ := List.mem_map.1 hmem
    exact hwf key hk
  · exact ⟨rfl, fun _ _ _ _ => rfl⟩

theorem c8_first_level0_wins_witness :
    ∃ st, kclRun c8sym (modsTable []) [XkbKey.mk 10 [[97], [65]]] = some st ∧
      st.combos [97] =
        some (10 - XKB_KEYCODE_OFFSET, ((modsTable []) [97]).getD 0) := by
  refine c8_first_level0_wins c8sym (modsTable []) [XkbKey.mk 10 [[97], [65]]]
    [97] 10 [97] ?_ (by decide) (by decide)
  intro k raw h
  unfold c8sym at h
  split at h
  · injection h with h'
    subst h'
    decide
  · split at h
    · injection h with h'
      subst h'
      decide
    · cases h

end PloverWayland
